import Mathlib

/-!
# x-linux-isp-tool: package reconciliation and control-file parsing

A shallow embedding of `x-linux-isp-tool.cc`:

* `packageInfo` is the C++ `struct packageInfo`;
* `std::unordered_map<std::string, std::string>` is an association list with
  the two operations the program uses, `operator[]`-assignment and `find`;
* `std::unordered_set<std::string>` is a duplicate-free list with `insert`;
  the order in which the program iterates over it is not fixed by the C++
  standard, so `_sort_packages` takes that order as a parameter `iter`
  (a rearrangement of the stored names);
* `std::string` is Lean's `String`, `find` returns `Option Nat` with `none`
  standing for `std::string::npos`;
* an opened file is the list of its lines, as `getline` delivers them.
-/

namespace XLinuxIsp

/-- The C++ `struct packageInfo`. -/
structure packageInfo where
  name : String
  version : String
deriving DecidableEq, Repr

/-! ## Containers -/

/-- Model of `std::unordered_map<std::string, std::string>`: at most one entry per key. -/
abbrev StrMap := List (String × String)

/-- Model of `m[k] = v`: overwrite the entry of `k`, or add one. -/
def StrMap.assign : StrMap → String → String → StrMap
  | [], k, v => [(k, v)]
  | (k', v') :: rest, k, v =>
    if k' = k then (k', v) :: rest else (k', v') :: StrMap.assign rest k v

/-- Model of `m.find(k)`: `none` stands for `m.end()`, `some v` for an iterator
whose `second` is `v`. -/
def StrMap.find : StrMap → String → Option String
  | [], _ => none
  | (k', v') :: rest, k => if k' = k then some v' else StrMap.find rest k

/-- Model of `std::unordered_set<std::string>`: a list without repetition. -/
abbrev StrSet := List String

/-- Model of `s.insert(k)`: nothing happens when `k` is already stored. -/
def StrSet.insert (s : StrSet) (k : String) : StrSet :=
  if k ∈ s then s else s ++ [k]

/-! ## `_sort_packages` -/

/-- First loop of `_sort_packages`: fills `x_pkgMap` and `x_pkgNames`. -/
def build_x (x_pkg : List packageInfo) : StrMap × StrSet :=
  x_pkg.foldl
    (fun st pkg => (StrMap.assign st.1 pkg.name pkg.version, StrSet.insert st.2 pkg.name))
    ([], [])

/-- Second loop of `_sort_packages`: fills `ostl_pkgMap`. -/
def build_ostl (ostl_pkg : List packageInfo) : StrMap :=
  ostl_pkg.foldl (fun m pkg => StrMap.assign m pkg.name pkg.version) []

/-- The three result vectors of `_sort_packages`. -/
structure Sorted where
  installedPackages : List packageInfo
  upgradablePackages : List packageInfo
  uninstalledPackages : List packageInfo
deriving DecidableEq, Repr

/-- Body of the third loop of `_sort_packages`, for one `name`. -/
def sort_step (x_pkgMap ostl_pkgMap : StrMap) (acc : Sorted) (name : String) : Sorted :=
  match StrMap.find x_pkgMap name, StrMap.find ostl_pkgMap name with
  | some v1, some v2 =>
    if v1 = v2 then
      { acc with installedPackages := acc.installedPackages ++ [⟨name, v1⟩] }
    else
      { acc with upgradablePackages := acc.upgradablePackages ++ [⟨name, v1⟩] }
  | some v1, none =>
    { acc with uninstalledPackages := acc.uninstalledPackages ++ [⟨name, v1⟩] }
  | none, _ => acc

/-- The function `_sort_packages`. `iter` is the order in which the hash set
`x_pkgNames` hands out its elements. -/
def _sort_packages (iter : List String → List String)
    (x_pkg ostl_pkg : List packageInfo) : Sorted :=
  let st := build_x x_pkg
  let ostl_pkgMap := build_ostl ostl_pkg
  (iter st.2).foldl (sort_step st.1 ostl_pkgMap) ⟨[], [], []⟩

/-! ## Strings -/

/-- Search for `needle` in the characters `hay`, whose first character has index `i`:
the least index at which `needle` starts, or `none`. -/
def findFrom (needle : List Char) : List Char → Nat → Option Nat
  | [], i => if needle = [] then some i else none
  | c :: cs, i => if needle.isPrefixOf (c :: cs) then some i else findFrom needle cs (i + 1)

/-- Model of `s.find(needle)`; `none` stands for `std::string::npos`. -/
def find (s needle : String) : Option Nat := findFrom needle.data s.data 0

/-- Model of `s.substr(pos)`. The program calls it with `pos = 9` on lines that
begin with a nine-character prefix, so `pos` never exceeds the length. -/
def substr (s : String) (pos : Nat) : String := ⟨s.data.drop pos⟩

/-- The tool's own package identifier, as written in `_get_pkg`. -/
def toolName : String := "x-linux-isp-tool"

/-! ## `_get_pkg` -/

/-- Body of the `getline` loop of `_get_pkg`: the state is `currentPackage` and `pkgs`. -/
def get_pkg_step (st : packageInfo × List packageInfo) (line : String) :
    packageInfo × List packageInfo :=
  let currentPackage : packageInfo :=
    if find line "Package: " = some 0 ∧ find line toolName = none then
      { st.1 with name := substr line 9 }
    else if find line "Version: " = some 0 then
      { st.1 with version := substr line 9 }
    else st.1
  let pkgs := if currentPackage.name ≠ "" then st.2 ++ [currentPackage] else st.2
  (currentPackage, pkgs)

/-- The loop of `_get_pkg` run from a given state over the remaining lines. -/
def get_pkg_run (st : packageInfo × List packageInfo) (lines : List String) :
    packageInfo × List packageInfo :=
  lines.foldl get_pkg_step st

/-- The line-scanning loop of `_get_pkg` on the lines of an opened file: it starts
with a default-constructed `currentPackage` and an empty `pkgs` and returns `pkgs`. -/
def _get_pkg_loop (lines : List String) : List packageInfo :=
  (get_pkg_run (⟨"", ""⟩, []) lines).2

/-- The function `_get_pkg`. The file is `none` when it cannot be opened, in which
case the program prints the wiki hint and calls `exit(1)`: the result is `none`. -/
def _get_pkg (file : Option (List String)) : Option (List packageInfo) :=
  match file with
  | none => none
  | some lines => some (_get_pkg_loop lines)

/-! ## `_is_package_in_list` -/

/-- Model of `std::find_if` on a vector: the index of the first element that satisfies
`pred`, or `none` for the `end()` iterator. -/
def find_if (pred : packageInfo → Bool) : List packageInfo → Option Nat
  | [] => none
  | p :: ps => if pred p then some 0 else (find_if pred ps).map (fun i => i + 1)

/-- The function `_is_package_in_list`: `it != packages.end()`. -/
def _is_package_in_list (packages : List packageInfo) (packageName : String) : Bool :=
  (find_if (fun pkg => decide (pkg.name = packageName)) packages).isSome

/-! ## `_get_x_pkg_path` -/

/-- What `directory_iterator` yields for one entry: the file name of the entry and
the answer of `is_regular_file()`. -/
structure DirEntry where
  filename : String
  is_regular_file : Bool
deriving DecidableEq, Repr

/-- Model of `entry.path().string()` for the entry `filename` of the directory `dir`:
the path `dir / filename`, in which a separator is added unless `dir` is empty or
already ends with one. -/
def entry_path (dir filename : String) : String :=
  if dir = "" ∨ dir.data.getLast? = some '/' then dir ++ filename
  else dir ++ "/" ++ filename

/-- Inner loop of `_get_x_pkg_path` over the entries of `dir`: `some path` when the
loop returns from the function, `none` when it runs to its end. -/
def search_entries (pattern : String → Bool) (dir : String) : List DirEntry → Option String
  | [] => none
  | entry :: rest =>
    if entry.is_regular_file then
      if pattern entry.filename then some (entry_path dir entry.filename)
      else search_entries pattern dir rest
    else search_entries pattern dir rest

/-- The function `_get_x_pkg_path`. The file system is `fs`: `fs dir` is `none` when
`dir` does not exist or is not a directory, and otherwise the entries of `dir` in the
order of iteration. `pattern f` is the answer of `std::regex_search` on the file name
`f`. -/
def _get_x_pkg_path (fs : String → Option (List DirEntry)) (pattern : String → Bool) :
    List String → String
  | [] => ""
  | dir :: rest =>
    match fs dir with
    | some entries =>
      match search_entries pattern dir entries with
      | some path => path
      | none => _get_x_pkg_path fs pattern rest
    | none => _get_x_pkg_path fs pattern rest

/-! ## `process_args`, `manage_pkgs` and `main` -/

/-- The global option flags of the program. -/
structure Flags where
  list : Bool
  to_remove : Bool
  to_install : Bool
  version : Bool
  features : Bool
deriving DecidableEq, Repr

/-- The loop of `process_args` over the option characters that `getopt_long` returns
before `-1`. The result is `none` when `print_help` is called, which ends the program
with `exit(0)`. -/
def process_args_loop : Flags → List Char → Option Flags
  | fl, [] => some fl
  | fl, opt :: rest =>
    if opt = 'v' then process_args_loop { fl with version := true } rest
    else if opt = 'f' then process_args_loop { fl with features := true } rest
    else if opt = 'l' then process_args_loop { fl with list := true } rest
    else if opt = 'r' then process_args_loop { fl with to_remove := true } rest
    else if opt = 'i' then process_args_loop { fl with to_install := true } rest
    else none

/-- The function `process_args`, started with all flags `false`. -/
def process_args (opts : List Char) : Option Flags :=
  process_args_loop ⟨false, false, false, false, false⟩ opts

/-- The command line that `manage_pkgs` hands to `system`. -/
def manage_command (argv2 : String) (install : Bool) : String :=
  (if install then "apt-get update && apt-get install -y " else "apt-get autoremove -y ")
    ++ argv2

/-- The function `manage_pkgs`: `true` when the command returns `0`, `false` when the
function ends the program with `exit(1)`. -/
def manage_pkgs (system : String → Int) (argv2 : String) (install : Bool) : Bool :=
  decide (system (manage_command argv2 install) = 0)

/-- How a run of `main` ends: the exit code, and the commands handed to `system`,
in the order of the calls. -/
structure Outcome where
  exitCode : Int
  commands : List String
deriving DecidableEq, Repr

/-- The kernel-module reload sequence of `main`, entered when `libcamera` is not in the
installed list. `system c` is the status that the command `c` returns. -/
def reload (system : String → Int) : Outcome :=
  if system "systemctl stop weston-graphical-session" ≠ 0 then
    ⟨0, ["systemctl stop weston-graphical-session"]⟩
  else if system "modprobe -r stm32_dcmipp" ≠ 0 then
    ⟨0, ["systemctl stop weston-graphical-session", "modprobe -r stm32_dcmipp"]⟩
  else if system "modprobe stm32_dcmipp" ≠ 0 then
    ⟨0, ["systemctl stop weston-graphical-session", "modprobe -r stm32_dcmipp",
      "modprobe stm32_dcmipp"]⟩
  else if system "systemctl start weston-graphical-session" ≠ 0 then
    ⟨0, ["systemctl stop weston-graphical-session", "modprobe -r stm32_dcmipp",
      "modprobe stm32_dcmipp", "systemctl start weston-graphical-session"]⟩
  else
    ⟨0, ["systemctl stop weston-graphical-session", "modprobe -r stm32_dcmipp",
      "modprobe stm32_dcmipp", "systemctl start weston-graphical-session"]⟩

/-- Everything outside the program that a run of `main` depends on. -/
structure Env where
  /-- The argument count. -/
  argc : Nat
  /-- The argument `argv[2]`. -/
  argv2 : String
  /-- The option characters that `getopt_long` returns. -/
  opts : List Char
  /-- The output of `popen("apt-get update 2>&1")` in the pieces that `fgets` reads;
  `none` when `popen` fails. -/
  apt_update : Option (List String)
  /-- The directories of the file system. -/
  fs : String → Option (List DirEntry)
  /-- The answer of `std::regex_search` for the catalog pattern. -/
  pattern : String → Bool
  /-- The lines of a file, `none` when it cannot be opened. -/
  file : String → Option (List String)
  /-- The status that `system` returns for a command. -/
  system : String → Int
  /-- The iteration order of the hash set in `_sort_packages`. -/
  iter : List String → List String

/-- The part of `main` after the two package lists are read. -/
def main_dispatch (env : Env) (fl : Flags) (x_pkg ostl_pkg : List packageInfo) : Outcome :=
  let sorted := _sort_packages env.iter x_pkg ostl_pkg
  if fl.list then ⟨0, []⟩
  else if fl.to_install ∧ env.argc = 3 then
    if manage_pkgs env.system env.argv2 true then
      if !_is_package_in_list sorted.installedPackages "libcamera" then
        ⟨(reload env.system).exitCode,
          manage_command env.argv2 true :: (reload env.system).commands⟩
      else ⟨0, [manage_command env.argv2 true]⟩
    else ⟨1, [manage_command env.argv2 true]⟩
  else if fl.to_remove ∧ env.argc = 3 then
    if manage_pkgs env.system env.argv2 false then ⟨0, [manage_command env.argv2 false]⟩
    else ⟨1, [manage_command env.argv2 false]⟩
  else ⟨0, []⟩

/-- The function `main`. -/
def main (env : Env) : Outcome :=
  match process_args env.opts with
  | none => ⟨0, []⟩
  | some fl =>
    if fl.version then ⟨0, []⟩
    else if fl.features then ⟨0, []⟩
    else
      match env.apt_update with
      | none => ⟨0, []⟩
      | some output =>
        if output.any (fun piece => decide (find piece "W: Failed" ≠ none)) then ⟨0, []⟩
        else
          let x_pkg_path := _get_x_pkg_path env.fs env.pattern
            ["/var/lib/apt/lists/", "/var/lib/apt/lists/auxfiles/"]
          if x_pkg_path = "" then ⟨-1, []⟩
          else
            match _get_pkg (env.file x_pkg_path) with
            | none => ⟨1, []⟩
            | some x_pkg =>
              match _get_pkg (env.file "/var/lib/dpkg/status") with
              | none => ⟨1, []⟩
              | some ostl_pkg => main_dispatch env fl x_pkg ostl_pkg

/-! ## Vocabulary of the specification -/

/-- The names occurring in a list of records. -/
def names (l : List packageInfo) : List String := l.map (fun p => p.name)

/-- The version of the last record of `l` named `n`, if there is one
("last value wins"). -/
def lastVersion (l : List packageInfo) (n : String) : Option String :=
  ((l.filter (fun p => p.name = n)).getLast?).map (fun p => p.version)

/-- The line `line` begins with the text `pre`. -/
def beginsWith (line pre : String) : Prop := pre.data <+: line.data

instance beginsWith_decidable (line pre : String) : Decidable (beginsWith line pre) := by
  unfold beginsWith
  infer_instance

/-- The string `s` contains the text `t`. -/
def containsText (s t : String) : Prop := t.data <:+: s.data

instance containsText_decidable (s t : String) : Decidable (containsText s t) := by
  unfold containsText
  infer_instance

/-- A line that begins with neither of the two recognised prefixes. -/
def otherLine (line : String) : Prop :=
  ¬ beginsWith line "Package: " ∧ ¬ beginsWith line "Version: "

instance otherLine_decidable (line : String) : Decidable (otherLine line) := by
  unfold otherLine
  infer_instance

/-- A block of a control file: a `Package: ` line, other lines, a `Version: ` line,
other lines. -/
structure Block where
  name : String
  afterName : List String
  version : String
  afterVersion : List String

/-- The lines of a block, in order. -/
def Block.lines (b : Block) : List String :=
  ["Package: " ++ b.name] ++ b.afterName ++ ["Version: " ++ b.version] ++ b.afterVersion

/-- The record a block stands for. -/
def Block.record (b : Block) : packageInfo := ⟨b.name, b.version⟩

/-- The name of the block is non-empty and does not contain the tool's name, and the
lines between and after the two fields begin with neither prefix. -/
def Block.wellFormed (b : Block) : Prop :=
  b.name ≠ "" ∧ ¬ containsText b.name "x-linux-isp-tool" ∧
    (∀ l ∈ b.afterName, otherLine l) ∧ (∀ l ∈ b.afterVersion, otherLine l)

instance wellFormed_decidable (b : Block) : Decidable b.wellFormed := by
  unfold Block.wellFormed
  infer_instance

/-- The input lines made of the blocks `bs`, in order. -/
def blockLines (bs : List Block) : List String := bs.flatMap Block.lines


/-- The tentative record `currentPackage` after the loop of `_get_pkg` has processed
the lines `lines`. -/
def currentAfter (lines : List String) : packageInfo :=
  (get_pkg_run (⟨"", ""⟩, []) lines).1

/-- The four commands of the reload sequence, in their fixed order. -/
def reload_commands : List String :=
  ["systemctl stop weston-graphical-session", "modprobe -r stm32_dcmipp",
    "modprobe stm32_dcmipp", "systemctl start weston-graphical-session"]

/-- The commands that are issued when the commands `cs` are run one after the other,
each one only after the one before it has returned `0`: the run goes on with the next
command after a success and stops after the first command that returns a non-zero
status. -/
def issuedUntilFailure (system : String → Int) : List String → List String
  | [] => []
  | c :: cs => if system c ≠ 0 then [c] else c :: issuedUntilFailure system cs

/-- The entry is a regular file whose file name matches the pattern. -/
def matchingEntry (pattern : String → Bool) (e : DirEntry) : Prop :=
  e.is_regular_file = true ∧ pattern e.filename = true

instance matchingEntry_decidable (pattern : String → Bool) (e : DirEntry) :
    Decidable (matchingEntry pattern e) := by
  unfold matchingEntry
  infer_instance

/-- The names of the three result lists, one list after the other. -/
def Sorted.allNames (r : Sorted) : List String :=
  names r.installedPackages ++ names r.upgradablePackages ++ names r.uninstalledPackages

/-- A sample run of `main`: the call `x-linux-isp-tool -i libcamera` on a board whose
catalog lists `libcamera` in version `1` and whose status file does not have it; the
results of the commands are given by `system`. -/
def sampleEnv (system : String → Int) : Env where
  argc := 3
  argv2 := "libcamera"
  opts := ['i']
  apt_update := some ["Hit:1 http://packages", "Reading package lists..."]
  fs := fun d =>
    if d = "/var/lib/apt/lists/" then some [⟨"lock", true⟩, ⟨"a_ISP_b_main_c", true⟩]
    else none
  pattern := fun f => decide (containsText f "_ISP_")
  file := fun f =>
    if f = "/var/lib/dpkg/status" then some ["Package: bash", "Version: 5"]
    else if f = "/var/lib/apt/lists/a_ISP_b_main_c" then
      some ["Package: libcamera", "Version: 1"]
    else none
  system := system
  iter := id

/-! ## Lemmas on the containers -/

theorem lastVersion_nil (n : String) : lastVersion [] n = none := rfl

theorem lastVersion_concat (l : List packageInfo) (p : packageInfo) (n : String) :
    lastVersion (l ++ [p]) n = if p.name = n then some p.version else lastVersion l n := by
  unfold lastVersion
  by_cases h : p.name = n
  · simp [List.filter_append, h, List.getLast?_concat]
  · simp [List.filter_append, h]

theorem names_concat (l : List packageInfo) (p : packageInfo) :
    names (l ++ [p]) = names l ++ [p.name] := by
  simp [names]

theorem lastVersion_isSome_iff (l : List packageInfo) (n : String) :
    (∃ v, lastVersion l n = some v) ↔ n ∈ names l := by
  induction l using List.reverseRecOn with
  | nil => simp [lastVersion_nil, names]
  | append_singleton l p ih =>
    rw [lastVersion_concat, names_concat]
    by_cases h : p.name = n
    · simp [h]
    · have h2 : ¬ n = p.name := fun e => h e.symm
      simp [h, h2, ih]

theorem lastVersion_eq_none_iff (l : List packageInfo) (n : String) :
    lastVersion l n = none ↔ n ∉ names l := by
  rw [← lastVersion_isSome_iff]
  cases lastVersion l n <;> simp

theorem StrMap.find_assign (m : StrMap) (k v k2 : String) :
    StrMap.find (StrMap.assign m k v) k2 = if k = k2 then some v else StrMap.find m k2 := by
  induction m with
  | nil => simp [StrMap.assign, StrMap.find]
  | cons e rest ih =>
    obtain ⟨k1, v1⟩ := e
    by_cases h1 : k1 = k
    · subst h1
      by_cases h2 : k1 = k2 <;> simp [StrMap.assign, StrMap.find, h2]
    · by_cases h2 : k1 = k2
      · subst h2
        have h3 : ¬ k = k1 := fun e => h1 e.symm
        simp [StrMap.assign, StrMap.find, h1, h3]
      · simp [StrMap.assign, StrMap.find, h1, h2, ih]

theorem StrSet.mem_insert (s : StrSet) (k n : String) :
    n ∈ StrSet.insert s k ↔ n ∈ s ∨ n = k := by
  unfold StrSet.insert
  by_cases h : k ∈ s
  · simp only [h, if_true]
    constructor
    · exact Or.inl
    · rintro (h1 | h1)
      · exact h1
      · exact h1 ▸ h
  · simp [h]

theorem StrSet.nodup_insert (s : StrSet) (k : String) (hs : s.Nodup) :
    (StrSet.insert s k).Nodup := by
  unfold StrSet.insert
  by_cases h : k ∈ s
  · simpa [h] using hs
  · simp only [h, if_false]
    rw [List.nodup_append]
    refine ⟨hs, List.nodup_singleton k, ?_⟩
    intro a ha hb
    simp at hb
    exact h (hb ▸ ha)

theorem build_ostl_concat (l : List packageInfo) (p : packageInfo) :
    build_ostl (l ++ [p]) = StrMap.assign (build_ostl l) p.name p.version := by
  simp [build_ostl, List.foldl_append]

theorem build_x_concat (l : List packageInfo) (p : packageInfo) :
    build_x (l ++ [p]) =
      (StrMap.assign (build_x l).1 p.name p.version, StrSet.insert (build_x l).2 p.name) := by
  simp [build_x, List.foldl_append]

/-- After the second loop, `ostl_pkgMap.find(n)` is the last version recorded for `n`. -/
theorem build_ostl_find (l : List packageInfo) (n : String) :
    StrMap.find (build_ostl l) n = lastVersion l n := by
  induction l using List.reverseRecOn with
  | nil => rfl
  | append_singleton l p ih =>
    rw [build_ostl_concat, StrMap.find_assign, lastVersion_concat, ih]

/-- After the first loop, `x_pkgMap.find(n)` is the last version recorded for `n`. -/
theorem build_x_find (l : List packageInfo) (n : String) :
    StrMap.find (build_x l).1 n = lastVersion l n := by
  induction l using List.reverseRecOn with
  | nil => rfl
  | append_singleton l p ih =>
    rw [build_x_concat, StrMap.find_assign, lastVersion_concat, ih]

/-- After the first loop, `x_pkgNames` holds exactly the names of the catalog. -/
theorem build_x_mem (l : List packageInfo) (n : String) :
    n ∈ (build_x l).2 ↔ n ∈ names l := by
  induction l using List.reverseRecOn with
  | nil => simp [build_x, names]
  | append_singleton l p ih =>
    rw [build_x_concat, names_concat]
    simp [StrSet.mem_insert, ih]

theorem build_x_nodup (l : List packageInfo) : (build_x l).2.Nodup := by
  induction l using List.reverseRecOn with
  | nil => simp [build_x]
  | append_singleton l p ih =>
    rw [build_x_concat]
    exact StrSet.nodup_insert _ _ ih

/-! ## The classification loop -/

theorem sort_step_installed (x o : StrMap) (acc : Sorted) (n : String) (p : packageInfo) :
    p ∈ (sort_step x o acc n).installedPackages ↔
      p ∈ acc.installedPackages ∨
        (p.name = n ∧ StrMap.find x n = some p.version ∧ StrMap.find o n = some p.version) := by
  obtain ⟨pn, pv⟩ := p
  unfold sort_step
  cases hx : StrMap.find x n with
  | none => simp
  | some v1 =>
    cases ho : StrMap.find o n with
    | none => simp
    | some v2 =>
      by_cases hv : v1 = v2
      · subst hv
        simp only [if_true, List.mem_append, List.mem_singleton, packageInfo.mk.injEq,
          Option.some.injEq]
        constructor
        · rintro (h | ⟨h1, h2⟩)
          · exact Or.inl h
          · exact Or.inr ⟨h1, h2.symm, h2.symm⟩
        · rintro (h | ⟨h1, h2, _⟩)
          · exact Or.inl h
          · exact Or.inr ⟨h1, h2.symm⟩
      · simp only [hv, if_false, Option.some.injEq]
        constructor
        · exact Or.inl
        · rintro (h | ⟨_, h2, h3⟩)
          · exact h
          · exact absurd (h2.trans h3.symm) hv

theorem sort_step_upgradable (x o : StrMap) (acc : Sorted) (n : String) (p : packageInfo) :
    p ∈ (sort_step x o acc n).upgradablePackages ↔
      p ∈ acc.upgradablePackages ∨
        (p.name = n ∧ StrMap.find x n = some p.version ∧
          ∃ w, StrMap.find o n = some w ∧ p.version ≠ w) := by
  obtain ⟨pn, pv⟩ := p
  unfold sort_step
  cases hx : StrMap.find x n with
  | none => simp
  | some v1 =>
    cases ho : StrMap.find o n with
    | none => simp
    | some v2 =>
      by_cases hv : v1 = v2
      · subst hv
        simp only [if_true, Option.some.injEq]
        constructor
        · exact Or.inl
        · rintro (h | ⟨_, h2, w, h3, h4⟩)
          · exact h
          · exact absurd (h2.symm.trans h3) h4
      · simp only [hv, if_false, List.mem_append, List.mem_singleton, packageInfo.mk.injEq,
          Option.some.injEq]
        constructor
        · rintro (h | ⟨h1, h2⟩)
          · exact Or.inl h
          · exact Or.inr ⟨h1, h2.symm, v2, rfl, fun e => hv (h2 ▸ e)⟩
        · rintro (h | ⟨h1, h2, _⟩)
          · exact Or.inl h
          · exact Or.inr ⟨h1, h2.symm⟩

theorem sort_step_uninstalled (x o : StrMap) (acc : Sorted) (n : String) (p : packageInfo) :
    p ∈ (sort_step x o acc n).uninstalledPackages ↔
      p ∈ acc.uninstalledPackages ∨
        (p.name = n ∧ StrMap.find x n = some p.version ∧ StrMap.find o n = none) := by
  obtain ⟨pn, pv⟩ := p
  unfold sort_step
  cases hx : StrMap.find x n with
  | none => simp
  | some v1 =>
    cases ho : StrMap.find o n with
    | none =>
      simp only [List.mem_append, List.mem_singleton, packageInfo.mk.injEq, Option.some.injEq,
        and_true]
      constructor
      · rintro (h | ⟨h1, h2⟩)
        · exact Or.inl h
        · exact Or.inr ⟨h1, h2.symm⟩
      · rintro (h | ⟨h1, h2⟩)
        · exact Or.inl h
        · exact Or.inr ⟨h1, h2.symm⟩
    | some v2 =>
      by_cases hv : v1 = v2
      · simp [hv]
      · simp [hv]

theorem sort_fold_installed (x o : StrMap) (ns : List String) (acc : Sorted) (p : packageInfo) :
    p ∈ (ns.foldl (sort_step x o) acc).installedPackages ↔
      p ∈ acc.installedPackages ∨
        (p.name ∈ ns ∧ StrMap.find x p.name = some p.version ∧
          StrMap.find o p.name = some p.version) := by
  induction ns generalizing acc with
  | nil => simp
  | cons n ns ih =>
    rw [List.foldl_cons, ih, sort_step_installed, List.mem_cons]
    constructor
    · rintro ((h | ⟨h1, h2, h3⟩) | ⟨h1, h2⟩)
      · exact Or.inl h
      · exact Or.inr ⟨Or.inl h1, h1 ▸ h2, h1 ▸ h3⟩
      · exact Or.inr ⟨Or.inr h1, h2⟩
    · rintro (h | ⟨h1 | h1, h2, h3⟩)
      · exact Or.inl (Or.inl h)
      · exact Or.inl (Or.inr ⟨h1, h1 ▸ h2, h1 ▸ h3⟩)
      · exact Or.inr ⟨h1, h2, h3⟩

theorem sort_fold_upgradable (x o : StrMap) (ns : List String) (acc : Sorted) (p : packageInfo) :
    p ∈ (ns.foldl (sort_step x o) acc).upgradablePackages ↔
      p ∈ acc.upgradablePackages ∨
        (p.name ∈ ns ∧ StrMap.find x p.name = some p.version ∧
          ∃ w, StrMap.find o p.name = some w ∧ p.version ≠ w) := by
  induction ns generalizing acc with
  | nil => simp
  | cons n ns ih =>
    rw [List.foldl_cons, ih, sort_step_upgradable, List.mem_cons]
    constructor
    · rintro ((h | ⟨h1, h2, h3⟩) | ⟨h1, h2⟩)
      · exact Or.inl h
      · exact Or.inr ⟨Or.inl h1, h1 ▸ h2, h1 ▸ h3⟩
      · exact Or.inr ⟨Or.inr h1, h2⟩
    · rintro (h | ⟨h1 | h1, h2, h3⟩)
      · exact Or.inl (Or.inl h)
      · exact Or.inl (Or.inr ⟨h1, h1 ▸ h2, h1 ▸ h3⟩)
      · exact Or.inr ⟨h1, h2, h3⟩

theorem sort_fold_uninstalled (x o : StrMap) (ns : List String) (acc : Sorted)
    (p : packageInfo) :
    p ∈ (ns.foldl (sort_step x o) acc).uninstalledPackages ↔
      p ∈ acc.uninstalledPackages ∨
        (p.name ∈ ns ∧ StrMap.find x p.name = some p.version ∧
          StrMap.find o p.name = none) := by
  induction ns generalizing acc with
  | nil => simp
  | cons n ns ih =>
    rw [List.foldl_cons, ih, sort_step_uninstalled, List.mem_cons]
    constructor
    · rintro ((h | ⟨h1, h2, h3⟩) | ⟨h1, h2⟩)
      · exact Or.inl h
      · exact Or.inr ⟨Or.inl h1, h1 ▸ h2, h1 ▸ h3⟩
      · exact Or.inr ⟨Or.inr h1, h2⟩
    · rintro (h | ⟨h1 | h1, h2, h3⟩)
      · exact Or.inl (Or.inl h)
      · exact Or.inl (Or.inr ⟨h1, h1 ▸ h2, h1 ▸ h3⟩)
      · exact Or.inr ⟨h1, h2, h3⟩

/-! ## Record-level description of the three result lists -/

theorem mem_installed (iter : List String → List String) (hiter : ∀ l, (iter l).Perm l)
    (x_pkg ostl_pkg : List packageInfo) (p : packageInfo) :
    p ∈ (_sort_packages iter x_pkg ostl_pkg).installedPackages ↔
      lastVersion x_pkg p.name = some p.version ∧
        lastVersion ostl_pkg p.name = some p.version := by
  unfold _sort_packages
  simp only [sort_fold_installed, build_x_find, build_ostl_find, List.not_mem_nil, false_or,
    (hiter _).mem_iff, build_x_mem]
  constructor
  · exact fun h => h.2
  · exact fun h => ⟨(lastVersion_isSome_iff _ _).1 ⟨_, h.1⟩, h⟩

theorem mem_upgradable (iter : List String → List String) (hiter : ∀ l, (iter l).Perm l)
    (x_pkg ostl_pkg : List packageInfo) (p : packageInfo) :
    p ∈ (_sort_packages iter x_pkg ostl_pkg).upgradablePackages ↔
      lastVersion x_pkg p.name = some p.version ∧
        ∃ w, lastVersion ostl_pkg p.name = some w ∧ p.version ≠ w := by
  unfold _sort_packages
  simp only [sort_fold_upgradable, build_x_find, build_ostl_find, List.not_mem_nil, false_or,
    (hiter _).mem_iff, build_x_mem]
  constructor
  · exact fun h => h.2
  · exact fun h => ⟨(lastVersion_isSome_iff _ _).1 ⟨_, h.1⟩, h⟩

theorem mem_uninstalled (iter : List String → List String) (hiter : ∀ l, (iter l).Perm l)
    (x_pkg ostl_pkg : List packageInfo) (p : packageInfo) :
    p ∈ (_sort_packages iter x_pkg ostl_pkg).uninstalledPackages ↔
      lastVersion x_pkg p.name = some p.version ∧ lastVersion ostl_pkg p.name = none := by
  unfold _sort_packages
  simp only [sort_fold_uninstalled, build_x_find, build_ostl_find, List.not_mem_nil, false_or,
    (hiter _).mem_iff, build_x_mem]
  constructor
  · exact fun h => h.2
  · exact fun h => ⟨(lastVersion_isSome_iff _ _).1 ⟨_, h.1⟩, h⟩

theorem mem_names_iff (l : List packageInfo) (n : String) :
    n ∈ names l ↔ ∃ v, (⟨n, v⟩ : packageInfo) ∈ l := by
  unfold names
  rw [List.mem_map]
  constructor
  · rintro ⟨⟨pn, pv⟩, h1, h2⟩
    exact ⟨pv, by simpa [← h2] using h1⟩
  · rintro ⟨v, h⟩
    exact ⟨⟨n, v⟩, h, rfl⟩

theorem name_installed (iter : List String → List String) (hiter : ∀ l, (iter l).Perm l)
    (x_pkg ostl_pkg : List packageInfo) (n : String) :
    n ∈ names (_sort_packages iter x_pkg ostl_pkg).installedPackages ↔
      ∃ v, lastVersion x_pkg n = some v ∧ lastVersion ostl_pkg n = some v := by
  simp only [mem_names_iff, mem_installed iter hiter]

theorem name_upgradable (iter : List String → List String) (hiter : ∀ l, (iter l).Perm l)
    (x_pkg ostl_pkg : List packageInfo) (n : String) :
    n ∈ names (_sort_packages iter x_pkg ostl_pkg).upgradablePackages ↔
      ∃ v, lastVersion x_pkg n = some v ∧ ∃ w, lastVersion ostl_pkg n = some w ∧ v ≠ w := by
  simp only [mem_names_iff, mem_upgradable iter hiter]

theorem name_uninstalled (iter : List String → List String) (hiter : ∀ l, (iter l).Perm l)
    (x_pkg ostl_pkg : List packageInfo) (n : String) :
    n ∈ names (_sort_packages iter x_pkg ostl_pkg).uninstalledPackages ↔
      ∃ v, lastVersion x_pkg n = some v ∧ lastVersion ostl_pkg n = none := by
  simp only [mem_names_iff, mem_uninstalled iter hiter]

/-- A set with one element is iterated in the only possible order. -/
theorem iter_singleton (iter : List String → List String) (hiter : ∀ l, (iter l).Perm l)
    (n : String) : iter [n] = [n] :=
  List.perm_singleton.1 (hiter [n])

/-- A name is installed exactly when it is in both inputs with equal last versions. -/
theorem sort_packages_installed_iff_aux (iter : List String → List String)
    (hiter : ∀ l, (iter l).Perm l) (catalog status : List packageInfo) (n : String) :
    n ∈ names (_sort_packages iter catalog status).installedPackages ↔
      n ∈ names catalog ∧ n ∈ names status ∧
        lastVersion catalog n = lastVersion status n := by
  rw [name_installed iter hiter]
  constructor
  · rintro ⟨v, h1, h2⟩
    exact ⟨(lastVersion_isSome_iff _ _).1 ⟨v, h1⟩, (lastVersion_isSome_iff _ _).1 ⟨v, h2⟩,
      h1.trans h2.symm⟩
  · rintro ⟨h1, _, h3⟩
    obtain ⟨v, hv⟩ := (lastVersion_isSome_iff _ _).2 h1
    exact ⟨v, hv, h3 ▸ hv⟩

/-! ## Claims on `_sort_packages` -/

/-- C1: the names of the three result lists are together exactly the names of the
catalog, no name is in two of the lists, and a name that occurs only in the status
list is in none of them. -/
theorem sort_packages_partition (iter : List String → List String)
    (hiter : ∀ l, (iter l).Perm l) (catalog status : List packageInfo) :
    (∀ n, (n ∈ names (_sort_packages iter catalog status).installedPackages ∨
            n ∈ names (_sort_packages iter catalog status).upgradablePackages ∨
            n ∈ names (_sort_packages iter catalog status).uninstalledPackages) ↔
          n ∈ names catalog) ∧
    (∀ n, ¬ (n ∈ names (_sort_packages iter catalog status).installedPackages ∧
            n ∈ names (_sort_packages iter catalog status).upgradablePackages)) ∧
    (∀ n, ¬ (n ∈ names (_sort_packages iter catalog status).installedPackages ∧
            n ∈ names (_sort_packages iter catalog status).uninstalledPackages)) ∧
    (∀ n, ¬ (n ∈ names (_sort_packages iter catalog status).upgradablePackages ∧
            n ∈ names (_sort_packages iter catalog status).uninstalledPackages)) ∧
    (∀ n, n ∈ names status → n ∉ names catalog →
          n ∉ names (_sort_packages iter catalog status).installedPackages ∧
          n ∉ names (_sort_packages iter catalog status).upgradablePackages ∧
          n ∉ names (_sort_packages iter catalog status).uninstalledPackages) := by
  simp only [name_installed iter hiter, name_upgradable iter hiter,
    name_uninstalled iter hiter]
  refine ⟨?_, ?_, ?_, ?_, ?_⟩
  · intro n
    constructor
    · rintro (⟨v, h, _⟩ | ⟨v, h, _⟩ | ⟨v, h, _⟩) <;>
        exact (lastVersion_isSome_iff _ _).1 ⟨v, h⟩
    · intro h
      obtain ⟨v, hv⟩ := (lastVersion_isSome_iff _ _).2 h
      cases hs : lastVersion status n with
      | none => exact Or.inr (Or.inr ⟨v, hv, rfl⟩)
      | some w =>
        by_cases e : v = w
        · exact Or.inl ⟨v, hv, by rw [e]⟩
        · exact Or.inr (Or.inl ⟨v, hv, w, rfl, e⟩)
  · rintro n ⟨⟨v, h1, h2⟩, ⟨v2, h3, w, h4, h5⟩⟩
    rw [h1] at h3
    rw [h2] at h4
    exact h5 ((Option.some.inj h3).symm.trans (Option.some.inj h4))
  · rintro n ⟨⟨v, _, h2⟩, ⟨v2, _, h4⟩⟩
    rw [h2] at h4
    exact Option.noConfusion h4
  · rintro n ⟨⟨v, _, w, h2, _⟩, ⟨v2, _, h4⟩⟩
    rw [h2] at h4
    exact Option.noConfusion h4
  · intro n _ hc
    have hnone : lastVersion catalog n = none := (lastVersion_eq_none_iff _ _).2 hc
    simp [hnone]

/-- C2: a name is in the installed list exactly when it occurs in both inputs and
the last catalog version equals the last status version as a string; a catalog name
with the empty version is installed exactly when the status version is empty too. -/
theorem sort_packages_installed_iff (iter : List String → List String)
    (hiter : ∀ l, (iter l).Perm l) (catalog status : List packageInfo) (n : String) :
    (n ∈ names (_sort_packages iter catalog status).installedPackages ↔
      n ∈ names catalog ∧ n ∈ names status ∧
        lastVersion catalog n = lastVersion status n) ∧
    (lastVersion catalog n = some "" →
      (n ∈ names (_sort_packages iter catalog status).installedPackages ↔
        lastVersion status n = some "")) := by
  rw [name_installed iter hiter]
  constructor
  · constructor
    · rintro ⟨v, h1, h2⟩
      exact ⟨(lastVersion_isSome_iff _ _).1 ⟨v, h1⟩, (lastVersion_isSome_iff _ _).1 ⟨v, h2⟩,
        h1.trans h2.symm⟩
    · rintro ⟨h1, _, h3⟩
      obtain ⟨v, hv⟩ := (lastVersion_isSome_iff _ _).2 h1
      exact ⟨v, hv, h3 ▸ hv⟩
  · intro h
    constructor
    · rintro ⟨v, h1, h2⟩
      rw [h2, ← h1, h]
    · intro h2
      exact ⟨"", h, h2⟩

/-- C3: a name is in the upgradable list exactly when it occurs in both inputs and
the last catalog version differs, as a string, from the last status version. -/
theorem sort_packages_upgradable_iff (iter : List String → List String)
    (hiter : ∀ l, (iter l).Perm l) (catalog status : List packageInfo) (n : String) :
    n ∈ names (_sort_packages iter catalog status).upgradablePackages ↔
      n ∈ names catalog ∧ n ∈ names status ∧
        lastVersion catalog n ≠ lastVersion status n := by
  rw [name_upgradable iter hiter]
  constructor
  · rintro ⟨v, h1, w, h2, h3⟩
    refine ⟨(lastVersion_isSome_iff _ _).1 ⟨v, h1⟩, (lastVersion_isSome_iff _ _).1 ⟨w, h2⟩, ?_⟩
    rw [h1, h2]
    exact fun e => h3 (Option.some.inj e)
  · rintro ⟨h1, h2, h3⟩
    obtain ⟨v, hv⟩ := (lastVersion_isSome_iff _ _).2 h1
    obtain ⟨w, hw⟩ := (lastVersion_isSome_iff _ _).2 h2
    refine ⟨v, hv, w, hw, ?_⟩
    intro e
    exact h3 (by rw [hv, hw, e])

/-- C4: a name is in the uninstalled list exactly when it occurs in the catalog and
in no status record; a one-record catalog with an empty status gives exactly
one uninstalled record. -/
theorem sort_packages_uninstalled_iff (iter : List String → List String)
    (hiter : ∀ l, (iter l).Perm l) (catalog status : List packageInfo) (n v : String) :
    (n ∈ names (_sort_packages iter catalog status).uninstalledPackages ↔
      n ∈ names catalog ∧ n ∉ names status) ∧
    _sort_packages iter [⟨n, v⟩] [] = ⟨[], [], [⟨n, v⟩]⟩ := by
  constructor
  · rw [name_uninstalled iter hiter]
    constructor
    · rintro ⟨w, h1, h2⟩
      exact ⟨(lastVersion_isSome_iff _ _).1 ⟨w, h1⟩, (lastVersion_eq_none_iff _ _).1 h2⟩
    · rintro ⟨h1, h2⟩
      obtain ⟨w, hw⟩ := (lastVersion_isSome_iff _ _).2 h1
      exact ⟨w, hw, (lastVersion_eq_none_iff _ _).2 h2⟩
  · simp [_sort_packages, build_x, build_ostl, StrMap.assign, StrSet.insert,
      iter_singleton iter hiter, sort_step, StrMap.find]

/-- C5, as amended: when the last catalog record named `n` and the last status
record named `n` both carry the version `v`, the name is in the installed list and
in neither of the other two. -/
theorem sort_packages_equal_last_version (iter : List String → List String)
    (hiter : ∀ l, (iter l).Perm l) (catalog status : List packageInfo) (n v : String)
    (hc : lastVersion catalog n = some v) (hs : lastVersion status n = some v) :
    n ∈ names (_sort_packages iter catalog status).installedPackages ∧
    n ∉ names (_sort_packages iter catalog status).upgradablePackages ∧
    n ∉ names (_sort_packages iter catalog status).uninstalledPackages := by
  refine ⟨(name_installed iter hiter _ _ _).2 ⟨v, hc, hs⟩, ?_, ?_⟩
  · rw [name_upgradable iter hiter]
    rintro ⟨v2, h1, w, h2, h3⟩
    rw [hc] at h1
    rw [hs] at h2
    exact h3 ((Option.some.inj h1).symm.trans (Option.some.inj h2))
  · rw [name_uninstalled iter hiter]
    rintro ⟨v2, _, h2⟩
    rw [hs] at h2
    exact Option.noConfusion h2

/-- C6: every record of the three result lists carries the version of the last
catalog record of its name; a catalog `[{n, v}]` against a status `[{n, w}]` with
`v ≠ w` gives exactly one upgradable record `{n, v}`. -/
theorem sort_packages_catalog_version (iter : List String → List String)
    (hiter : ∀ l, (iter l).Perm l) (catalog status : List packageInfo) (n v w : String)
    (hvw : v ≠ w) :
    (∀ p, p ∈ (_sort_packages iter catalog status).installedPackages ∨
          p ∈ (_sort_packages iter catalog status).upgradablePackages ∨
          p ∈ (_sort_packages iter catalog status).uninstalledPackages →
        lastVersion catalog p.name = some p.version) ∧
    _sort_packages iter [⟨n, v⟩] [⟨n, w⟩] = ⟨[], [⟨n, v⟩], []⟩ := by
  constructor
  · intro p h
    rw [mem_installed iter hiter, mem_upgradable iter hiter, mem_uninstalled iter hiter] at h
    rcases h with h | h | h <;> exact h.1
  · simp [_sort_packages, build_x, build_ostl, StrMap.assign, StrSet.insert,
      iter_singleton iter hiter, sort_step, StrMap.find, hvw]

/-- C7: two pairs of inputs with the same names and the same last version for every
name are classified alike: each of the three result lists holds the same records. -/
theorem sort_packages_last_value_view (iter : List String → List String)
    (hiter : ∀ l, (iter l).Perm l) (c1 c2 s1 s2 : List packageInfo)
    (hcn : ∀ n, n ∈ names c1 ↔ n ∈ names c2)
    (hcv : ∀ n, lastVersion c1 n = lastVersion c2 n)
    (hsn : ∀ n, n ∈ names s1 ↔ n ∈ names s2)
    (hsv : ∀ n, lastVersion s1 n = lastVersion s2 n) (p : packageInfo) :
    (p ∈ (_sort_packages iter c1 s1).installedPackages ↔
      p ∈ (_sort_packages iter c2 s2).installedPackages) ∧
    (p ∈ (_sort_packages iter c1 s1).upgradablePackages ↔
      p ∈ (_sort_packages iter c2 s2).upgradablePackages) ∧
    (p ∈ (_sort_packages iter c1 s1).uninstalledPackages ↔
      p ∈ (_sort_packages iter c2 s2).uninstalledPackages) := by
  have _ := hcn
  have _ := hsn
  simp only [mem_installed iter hiter, mem_upgradable iter hiter, mem_uninstalled iter hiter,
    hcv, hsv, and_self]

/-! ## Lemmas on strings -/

theorem findFrom_ge (needle hay : List Char) (i j : Nat)
    (h : findFrom needle hay i = some j) : i ≤ j := by
  induction hay generalizing i with
  | nil =>
    unfold findFrom at h
    split at h
    · exact Nat.le_of_eq (Option.some.inj h)
    · exact Option.noConfusion h
  | cons c cs ih =>
    unfold findFrom at h
    split at h
    · exact Nat.le_of_eq (Option.some.inj h)
    · exact Nat.le_of_succ_le (ih (i + 1) h)

/-- The test `line.find(pre) == 0` is the test "`line` begins with `pre`". -/
theorem find_eq_zero_iff (s pre : String) : find s pre = some 0 ↔ beginsWith s pre := by
  unfold find beginsWith
  cases s.data with
  | nil => simp [findFrom]
  | cons c cs =>
    unfold findFrom
    by_cases h : pre.data <+: c :: cs
    · simp [h]
    · simp only [List.isPrefixOf_iff_prefix, h, if_false, iff_false]
      intro h0
      exact absurd (findFrom_ge _ _ _ _ h0) (by decide)

theorem findFrom_eq_none_iff (needle hay : List Char) (i : Nat) :
    findFrom needle hay i = none ↔ ¬ needle <:+: hay := by
  induction hay generalizing i with
  | nil => simp [findFrom]
  | cons c cs ih =>
    unfold findFrom
    rw [List.infix_cons_iff]
    by_cases h : needle <+: c :: cs
    · simp [h]
    · simp [h, ih]

/-- The test `s.find(t) == npos` is the test "`s` does not contain `t`". -/
theorem find_eq_none_iff (s t : String) : find s t = none ↔ ¬ containsText s t :=
  findFrom_eq_none_iff _ _ _

theorem packagePrefix_data :
    "Package: ".data = ['P', 'a', 'c', 'k', 'a', 'g', 'e', ':', ' '] := rfl

theorem versionPrefix_data :
    "Version: ".data = ['V', 'e', 'r', 's', 'i', 'o', 'n', ':', ' '] := rfl

theorem toolName_data :
    toolName.data =
      ['x', '-', 'l', 'i', 'n', 'u', 'x', '-', 'i', 's', 'p', '-', 't', 'o', 'o', 'l'] := rfl

theorem substr_package (n : String) : substr ("Package: " ++ n) 9 = n := by
  apply String.ext
  simp [substr, packagePrefix_data]

theorem substr_version (v : String) : substr ("Version: " ++ v) 9 = v := by
  apply String.ext
  simp [substr, versionPrefix_data]

theorem beginsWith_package (n : String) : beginsWith ("Package: " ++ n) "Package: " := by
  simp [beginsWith]

theorem beginsWith_version (v : String) : beginsWith ("Version: " ++ v) "Version: " := by
  simp [beginsWith]

theorem not_beginsWith_package_of_version (v : String) :
    ¬ beginsWith ("Version: " ++ v) "Package: " := by
  simp [beginsWith, packagePrefix_data, versionPrefix_data]

/-- The tool's name cannot start inside the prefix `Package: `, so a package line
contains it only if the package name does. -/
theorem containsText_package_iff (n : String) :
    containsText ("Package: " ++ n) toolName ↔ containsText n toolName := by
  simp [containsText, packagePrefix_data, toolName_data, List.infix_cons_iff]

theorem containsText_substr (s t : String) (k : Nat) (h : containsText (substr s k) t) :
    containsText s t :=
  List.IsInfix.trans h (List.drop_suffix k s.data).isInfix

theorem not_containsText_empty : ¬ containsText "" toolName := by decide

theorem containsText_self (t : String) : containsText t t := List.infix_rfl

/-! ## One step of the parser loop -/

/-- The step on a line `Package: n` whose name does not contain the tool's name. -/
theorem get_pkg_step_package (st : packageInfo × List packageInfo) (n : String)
    (hn : ¬ containsText n toolName) :
    get_pkg_step st ("Package: " ++ n) =
      (⟨n, st.1.version⟩, if n ≠ "" then st.2 ++ [⟨n, st.1.version⟩] else st.2) := by
  have h1 : find ("Package: " ++ n) "Package: " = some 0 :=
    (find_eq_zero_iff _ _).2 (beginsWith_package n)
  have h2 : find ("Package: " ++ n) toolName = none :=
    (find_eq_none_iff _ _).2 (fun h => hn ((containsText_package_iff n).1 h))
  simp only [get_pkg_step, h1, h2, and_self, if_true, substr_package]

/-- The step on a line `Version: v`. -/
theorem get_pkg_step_version (st : packageInfo × List packageInfo) (v : String) :
    get_pkg_step st ("Version: " ++ v) =
      (⟨st.1.name, v⟩, if st.1.name ≠ "" then st.2 ++ [⟨st.1.name, v⟩] else st.2) := by
  have h1 : ¬ find ("Version: " ++ v) "Package: " = some 0 :=
    fun h => not_beginsWith_package_of_version v ((find_eq_zero_iff _ _).1 h)
  have h2 : find ("Version: " ++ v) "Version: " = some 0 :=
    (find_eq_zero_iff _ _).2 (beginsWith_version v)
  simp only [get_pkg_step, h1, h2, false_and, if_false, if_true, substr_version]

/-- The step on a line that begins with neither prefix. -/
theorem get_pkg_step_other (st : packageInfo × List packageInfo) (line : String)
    (h : otherLine line) :
    get_pkg_step st line = (st.1, if st.1.name ≠ "" then st.2 ++ [st.1] else st.2) := by
  have h1 : ¬ find line "Package: " = some 0 := fun e => h.1 ((find_eq_zero_iff _ _).1 e)
  have h2 : ¬ find line "Version: " = some 0 := fun e => h.2 ((find_eq_zero_iff _ _).1 e)
  simp only [get_pkg_step, h1, h2, false_and, if_false]

theorem get_pkg_run_nil (st : packageInfo × List packageInfo) : get_pkg_run st [] = st := rfl

theorem get_pkg_run_cons (st : packageInfo × List packageInfo) (l : String)
    (ls : List String) : get_pkg_run st (l :: ls) = get_pkg_run (get_pkg_step st l) ls := rfl

theorem get_pkg_run_append (st : packageInfo × List packageInfo) (l1 l2 : List String) :
    get_pkg_run st (l1 ++ l2) = get_pkg_run (get_pkg_run st l1) l2 := by
  simp [get_pkg_run, List.foldl_append]

/-- Lines that begin with neither prefix repeat the current record, once per line. -/
theorem get_pkg_run_other (cur : packageInfo) (out : List packageInfo) (ls : List String)
    (hcur : cur.name ≠ "") (h : ∀ l ∈ ls, otherLine l) :
    get_pkg_run (cur, out) ls = (cur, out ++ List.replicate ls.length cur) := by
  induction ls generalizing out with
  | nil => simp [get_pkg_run_nil]
  | cons l ls ih =>
    rw [get_pkg_run_cons, get_pkg_step_other _ _ (h l (List.mem_cons_self _ _))]
    simp only [hcur, ne_eq, not_false_eq_true, if_true]
    rw [ih _ (fun l2 h2 => h l2 (List.mem_cons_of_mem _ h2))]
    simp [List.replicate_succ]

/-- The parser state after a well-formed block. -/
theorem get_pkg_run_block (st : packageInfo × List packageInfo) (b : Block)
    (hb : b.wellFormed) :
    get_pkg_run st b.lines =
      (b.record,
        st.2 ++ ([⟨b.name, st.1.version⟩] ++
          List.replicate b.afterName.length ⟨b.name, st.1.version⟩ ++
          [b.record] ++ List.replicate b.afterVersion.length b.record)) := by
  obtain ⟨hne, hnt, h1, h2⟩ := hb
  unfold Block.lines
  simp only [get_pkg_run_append, List.singleton_append, get_pkg_run_cons, get_pkg_run_nil]
  rw [get_pkg_step_package _ _ hnt]
  simp only [hne, ne_eq, not_false_eq_true, if_true]
  rw [get_pkg_run_other _ _ _ hne h1, get_pkg_step_version]
  simp only [hne, ne_eq, not_false_eq_true, if_true]
  rw [get_pkg_run_other _ _ _ hne h2]
  simp [Block.record]

theorem lastVersion_append_replicate (l : List packageInfo) (c : packageInfo) (k : Nat)
    (n : String) :
    lastVersion (l ++ List.replicate k c) n =
      if k ≠ 0 ∧ c.name = n then some c.version else lastVersion l n := by
  induction k with
  | zero => simp
  | succ k ih =>
    rw [List.replicate_succ', ← List.append_assoc, lastVersion_concat, ih]
    by_cases h : c.name = n <;> simp [h]

/-- The records a well-formed block adds to the output, seen through the
last-value-wins view. -/
theorem lastVersion_block (out : List packageInfo) (m v0 v : String) (k1 k2 : Nat)
    (n : String) :
    lastVersion (out ++ ([⟨m, v0⟩] ++ List.replicate k1 ⟨m, v0⟩ ++ [⟨m, v⟩] ++
        List.replicate k2 ⟨m, v⟩)) n =
      if m = n then some v else lastVersion out n := by
  rw [← List.append_assoc, ← List.append_assoc, ← List.append_assoc,
    lastVersion_append_replicate, lastVersion_concat, lastVersion_append_replicate,
    lastVersion_concat]
  by_cases h : m = n <;> simp [h]

theorem names_block (out : List packageInfo) (m v0 v : String) (k1 k2 : Nat) (n : String) :
    n ∈ names (out ++ ([⟨m, v0⟩] ++ List.replicate k1 ⟨m, v0⟩ ++ [⟨m, v⟩] ++
        List.replicate k2 ⟨m, v⟩)) ↔ n ∈ names out ∨ n = m := by
  simp only [names, List.map_append, List.map_replicate, List.mem_append, List.map_cons,
    List.map_nil, List.mem_singleton, List.mem_replicate]
  tauto

theorem blockLines_concat (bs : List Block) (b : Block) :
    blockLines (bs ++ [b]) = blockLines bs ++ b.lines := by
  simp [blockLines]

/-! ## The name of the current record never contains the tool's name -/

theorem get_pkg_step_fst (st : packageInfo × List packageInfo) (line : String) :
    (get_pkg_step st line).1 =
      if find line "Package: " = some 0 ∧ find line toolName = none then
        { st.1 with name := substr line 9 }
      else if find line "Version: " = some 0 then
        { st.1 with version := substr line 9 }
      else st.1 := rfl

theorem get_pkg_step_snd (st : packageInfo × List packageInfo) (line : String) :
    (get_pkg_step st line).2 =
      if (get_pkg_step st line).1.name ≠ "" then st.2 ++ [(get_pkg_step st line).1]
      else st.2 := rfl

theorem get_pkg_step_no_tool (st : packageInfo × List packageInfo) (line : String)
    (h1 : ¬ containsText st.1.name toolName)
    (h2 : ∀ p ∈ st.2, ¬ containsText p.name toolName) :
    ¬ containsText (get_pkg_step st line).1.name toolName ∧
      ∀ p ∈ (get_pkg_step st line).2, ¬ containsText p.name toolName := by
  have hcur : ¬ containsText (get_pkg_step st line).1.name toolName := by
    rw [get_pkg_step_fst]
    by_cases hA : find line "Package: " = some 0 ∧ find line toolName = none
    · simp only [hA, and_self, if_true]
      intro h
      exact (find_eq_none_iff _ _).1 hA.2 (containsText_substr _ _ _ h)
    · by_cases hB : find line "Version: " = some 0
      · simpa only [hA, hB, if_false, if_true] using h1
      · simpa only [hA, hB, if_false] using h1
  refine ⟨hcur, ?_⟩
  intro p hp
  rw [get_pkg_step_snd] at hp
  by_cases hE : (get_pkg_step st line).1.name ≠ ""
  · rw [if_pos hE, List.mem_append, List.mem_singleton] at hp
    rcases hp with hp | hp
    · exact h2 p hp
    · rw [hp]
      exact hcur
  · rw [if_neg hE] at hp
    exact h2 p hp

theorem get_pkg_run_no_tool (lines : List String) (st : packageInfo × List packageInfo)
    (h1 : ¬ containsText st.1.name toolName)
    (h2 : ∀ p ∈ st.2, ¬ containsText p.name toolName) :
    ∀ p ∈ (get_pkg_run st lines).2, ¬ containsText p.name toolName := by
  induction lines generalizing st with
  | nil => exact h2
  | cons l ls ih =>
    rw [get_pkg_run_cons]
    exact ih _ (get_pkg_step_no_tool st l h1 h2).1 (get_pkg_step_no_tool st l h1 h2).2

/-! ## Claims on `_get_pkg` -/

/-- C8: on an input made of well-formed blocks (a `Package: ` line with a non-empty
name that does not contain the tool's name, other lines, a `Version: ` line, other
lines) the output of the loop has exactly the names of the blocks, and the last output
record of a name carries the version of the last block of that name. -/
theorem get_pkg_blocks (bs : List Block) (hbs : ∀ b ∈ bs, b.wellFormed) (n : String) :
    (n ∈ names (_get_pkg_loop (blockLines bs)) ↔ n ∈ bs.map Block.name) ∧
    lastVersion (_get_pkg_loop (blockLines bs)) n = lastVersion (bs.map Block.record) n := by
  unfold _get_pkg_loop
  induction bs using List.reverseRecOn with
  | nil => simp [blockLines, get_pkg_run_nil, names, lastVersion_nil]
  | append_singleton bs b ih =>
    have hb : b.wellFormed := hbs b (by simp)
    have ih2 := ih (fun b2 h2 => hbs b2 (by simp [h2]))
    rw [blockLines_concat, get_pkg_run_append, get_pkg_run_block _ _ hb]
    simp only [Block.record, names_block, lastVersion_block, List.map_append, List.map_cons,
      List.map_nil, lastVersion_concat, List.mem_append, List.mem_singleton, ih2]
    exact ⟨trivial, trivial⟩

/-- C9: the two lines `Package: n`, `Version: v`, for a non-empty `n` that does not
contain the tool's name, parse to an output that contains the record `{n, v}`; the
whole output is the partial record `{n, ""}` followed by `{n, v}`. -/
theorem get_pkg_round_trip (n v : String) (hne : n ≠ "")
    (hnt : ¬ containsText n "x-linux-isp-tool") :
    (⟨n, v⟩ : packageInfo) ∈ _get_pkg_loop ["Package: " ++ n, "Version: " ++ v] ∧
    _get_pkg_loop ["Package: " ++ n, "Version: " ++ v] = [⟨n, ""⟩, ⟨n, v⟩] := by
  have h : _get_pkg_loop ["Package: " ++ n, "Version: " ++ v] = [⟨n, ""⟩, ⟨n, v⟩] := by
    simp [_get_pkg_loop, get_pkg_run_cons, get_pkg_run_nil, get_pkg_step_package _ _ hnt,
      get_pkg_step_version, hne]
  rw [h]
  simp

/-- C10: whatever the input lines, `_get_pkg` returns a list in which no record is
named `x-linux-isp-tool`. -/
theorem get_pkg_self_exclusion (lines : List String) :
    ∃ out, _get_pkg (some lines) = some out ∧
      ∀ p ∈ out, p.name ≠ "x-linux-isp-tool" := by
  refine ⟨_get_pkg_loop lines, rfl, ?_⟩
  intro p hp hname
  have h := get_pkg_run_no_tool lines (⟨"", ""⟩, []) not_containsText_empty
    (fun q hq => absurd hq (List.not_mem_nil q)) p hp
  rw [hname] at h
  exact h (containsText_self toolName)

/-! ## Concrete runs -/

theorem sort_packages_partition_witness :
    (∀ l : List String, (id l).Perm l) ∧
    ((∀ n, (n ∈ names (_sort_packages id [⟨"a", "1"⟩, ⟨"b", "2"⟩] [⟨"a", "1"⟩]).installedPackages ∨
            n ∈ names (_sort_packages id [⟨"a", "1"⟩, ⟨"b", "2"⟩] [⟨"a", "1"⟩]).upgradablePackages ∨
            n ∈ names (_sort_packages id [⟨"a", "1"⟩, ⟨"b", "2"⟩] [⟨"a", "1"⟩]).uninstalledPackages) ↔
          n ∈ names [⟨"a", "1"⟩, ⟨"b", "2"⟩]) ∧
    (∀ n, ¬ (n ∈ names (_sort_packages id [⟨"a", "1"⟩, ⟨"b", "2"⟩] [⟨"a", "1"⟩]).installedPackages ∧
            n ∈ names (_sort_packages id [⟨"a", "1"⟩, ⟨"b", "2"⟩] [⟨"a", "1"⟩]).upgradablePackages)) ∧
    (∀ n, ¬ (n ∈ names (_sort_packages id [⟨"a", "1"⟩, ⟨"b", "2"⟩] [⟨"a", "1"⟩]).installedPackages ∧
            n ∈ names (_sort_packages id [⟨"a", "1"⟩, ⟨"b", "2"⟩] [⟨"a", "1"⟩]).uninstalledPackages)) ∧
    (∀ n, ¬ (n ∈ names (_sort_packages id [⟨"a", "1"⟩, ⟨"b", "2"⟩] [⟨"a", "1"⟩]).upgradablePackages ∧
            n ∈ names (_sort_packages id [⟨"a", "1"⟩, ⟨"b", "2"⟩] [⟨"a", "1"⟩]).uninstalledPackages)) ∧
    (∀ n, n ∈ names [⟨"a", "1"⟩] → n ∉ names [⟨"a", "1"⟩, ⟨"b", "2"⟩] →
          n ∉ names (_sort_packages id [⟨"a", "1"⟩, ⟨"b", "2"⟩] [⟨"a", "1"⟩]).installedPackages ∧
          n ∉ names (_sort_packages id [⟨"a", "1"⟩, ⟨"b", "2"⟩] [⟨"a", "1"⟩]).upgradablePackages ∧
          n ∉ names (_sort_packages id [⟨"a", "1"⟩, ⟨"b", "2"⟩] [⟨"a", "1"⟩]).uninstalledPackages)) :=
  ⟨fun l => List.Perm.refl l,
    sort_packages_partition id (fun l => List.Perm.refl l) [⟨"a", "1"⟩, ⟨"b", "2"⟩] [⟨"a", "1"⟩]⟩

theorem sort_packages_installed_iff_witness :
    (∀ l : List String, (id l).Perm l) ∧
    (("a" ∈ names (_sort_packages id [⟨"a", ""⟩] [⟨"a", ""⟩]).installedPackages ↔
      "a" ∈ names [⟨"a", ""⟩] ∧ "a" ∈ names [⟨"a", ""⟩] ∧
        lastVersion [⟨"a", ""⟩] "a" = lastVersion [⟨"a", ""⟩] "a") ∧
    (lastVersion [⟨"a", ""⟩] "a" = some "" →
      ("a" ∈ names (_sort_packages id [⟨"a", ""⟩] [⟨"a", ""⟩]).installedPackages ↔
        lastVersion [⟨"a", ""⟩] "a" = some ""))) :=
  ⟨fun l => List.Perm.refl l,
    sort_packages_installed_iff id (fun l => List.Perm.refl l) [⟨"a", ""⟩] [⟨"a", ""⟩] "a"⟩

theorem sort_packages_upgradable_iff_witness :
    (∀ l : List String, (id l).Perm l) ∧
    ("app" ∈ names (_sort_packages id [⟨"app", "2.0"⟩] [⟨"app", "1.0"⟩]).upgradablePackages ↔
      "app" ∈ names [⟨"app", "2.0"⟩] ∧ "app" ∈ names [⟨"app", "1.0"⟩] ∧
        lastVersion [⟨"app", "2.0"⟩] "app" ≠ lastVersion [⟨"app", "1.0"⟩] "app") :=
  ⟨fun l => List.Perm.refl l,
    sort_packages_upgradable_iff id (fun l => List.Perm.refl l) [⟨"app", "2.0"⟩]
      [⟨"app", "1.0"⟩] "app"⟩

theorem sort_packages_uninstalled_iff_witness :
    (∀ l : List String, (id l).Perm l) ∧
    (("lib" ∈ names (_sort_packages id [⟨"lib", "1.0"⟩, ⟨"app", "2.0"⟩]
          [⟨"app", "2.0"⟩]).uninstalledPackages ↔
      "lib" ∈ names [⟨"lib", "1.0"⟩, ⟨"app", "2.0"⟩] ∧ "lib" ∉ names [⟨"app", "2.0"⟩]) ∧
    _sort_packages id [⟨"lib", "1.0"⟩] [] = ⟨[], [], [⟨"lib", "1.0"⟩]⟩) :=
  ⟨fun l => List.Perm.refl l,
    sort_packages_uninstalled_iff id (fun l => List.Perm.refl l)
      [⟨"lib", "1.0"⟩, ⟨"app", "2.0"⟩] [⟨"app", "2.0"⟩] "lib" "1.0"⟩

/-- C5 as stated fails: the catalog holds a record `{b, 1}` and so does the status
list, but the last catalog record named `b` has version `2`, and `b` is classified
as upgradable, not as installed. -/
theorem sort_packages_equal_record_counterexample :
    (⟨"b", "1"⟩ : packageInfo) ∈ [(⟨"b", "1"⟩ : packageInfo), ⟨"b", "2"⟩] ∧
    (⟨"b", "1"⟩ : packageInfo) ∈ [(⟨"b", "1"⟩ : packageInfo)] ∧
    "b" ∉ names (_sort_packages id [⟨"b", "1"⟩, ⟨"b", "2"⟩] [⟨"b", "1"⟩]).installedPackages ∧
    "b" ∈ names (_sort_packages id [⟨"b", "1"⟩, ⟨"b", "2"⟩] [⟨"b", "1"⟩]).upgradablePackages := by
  decide

theorem sort_packages_equal_last_version_witness :
    (∀ l : List String, (id l).Perm l) ∧
    lastVersion [⟨"b", "1"⟩, ⟨"b", "2"⟩] "b" = some "2" ∧
    lastVersion [⟨"b", "2"⟩] "b" = some "2" ∧
    ("b" ∈ names (_sort_packages id [⟨"b", "1"⟩, ⟨"b", "2"⟩] [⟨"b", "2"⟩]).installedPackages ∧
     "b" ∉ names (_sort_packages id [⟨"b", "1"⟩, ⟨"b", "2"⟩] [⟨"b", "2"⟩]).upgradablePackages ∧
     "b" ∉ names (_sort_packages id [⟨"b", "1"⟩, ⟨"b", "2"⟩] [⟨"b", "2"⟩]).uninstalledPackages) :=
  ⟨fun l => List.Perm.refl l, by decide, by decide,
    sort_packages_equal_last_version id (fun l => List.Perm.refl l)
      [⟨"b", "1"⟩, ⟨"b", "2"⟩] [⟨"b", "2"⟩] "b" "2" (by decide) (by decide)⟩

theorem sort_packages_catalog_version_witness :
    (∀ l : List String, (id l).Perm l) ∧ "2.0" ≠ "1.0" ∧
    ((∀ p, p ∈ (_sort_packages id [⟨"app", "1.5"⟩, ⟨"app", "2.0"⟩]
              [⟨"app", "1.0"⟩]).installedPackages ∨
          p ∈ (_sort_packages id [⟨"app", "1.5"⟩, ⟨"app", "2.0"⟩]
              [⟨"app", "1.0"⟩]).upgradablePackages ∨
          p ∈ (_sort_packages id [⟨"app", "1.5"⟩, ⟨"app", "2.0"⟩]
              [⟨"app", "1.0"⟩]).uninstalledPackages →
        lastVersion [⟨"app", "1.5"⟩, ⟨"app", "2.0"⟩] p.name = some p.version) ∧
    _sort_packages id [⟨"app", "2.0"⟩] [⟨"app", "1.0"⟩] = ⟨[], [⟨"app", "2.0"⟩], []⟩) :=
  ⟨fun l => List.Perm.refl l, by decide,
    sort_packages_catalog_version id (fun l => List.Perm.refl l)
      [⟨"app", "1.5"⟩, ⟨"app", "2.0"⟩] [⟨"app", "1.0"⟩] "app" "2.0" "1.0" (by decide)⟩

theorem sort_packages_last_value_view_witness :
    (∀ l : List String, (id l).Perm l) ∧
    (∀ n, n ∈ names [⟨"a", ""⟩, ⟨"a", "1"⟩] ↔ n ∈ names [⟨"a", "1"⟩]) ∧
    (∀ n, lastVersion [⟨"a", ""⟩, ⟨"a", "1"⟩] n = lastVersion [⟨"a", "1"⟩] n) ∧
    (∀ n, n ∈ names [⟨"a", "0"⟩, ⟨"a", "1"⟩] ↔ n ∈ names [⟨"a", "1"⟩]) ∧
    (∀ n, lastVersion [⟨"a", "0"⟩, ⟨"a", "1"⟩] n = lastVersion [⟨"a", "1"⟩] n) ∧
    ((⟨"a", "1"⟩ ∈ (_sort_packages id [⟨"a", ""⟩, ⟨"a", "1"⟩]
          [⟨"a", "0"⟩, ⟨"a", "1"⟩]).installedPackages ↔
      ⟨"a", "1"⟩ ∈ (_sort_packages id [⟨"a", "1"⟩] [⟨"a", "1"⟩]).installedPackages) ∧
    (⟨"a", "1"⟩ ∈ (_sort_packages id [⟨"a", ""⟩, ⟨"a", "1"⟩]
          [⟨"a", "0"⟩, ⟨"a", "1"⟩]).upgradablePackages ↔
      ⟨"a", "1"⟩ ∈ (_sort_packages id [⟨"a", "1"⟩] [⟨"a", "1"⟩]).upgradablePackages) ∧
    (⟨"a", "1"⟩ ∈ (_sort_packages id [⟨"a", ""⟩, ⟨"a", "1"⟩]
          [⟨"a", "0"⟩, ⟨"a", "1"⟩]).uninstalledPackages ↔
      ⟨"a", "1"⟩ ∈ (_sort_packages id [⟨"a", "1"⟩] [⟨"a", "1"⟩]).uninstalledPackages)) :=
  have hn1 : ∀ n, n ∈ names [⟨"a", ""⟩, ⟨"a", "1"⟩] ↔ n ∈ names [⟨"a", "1"⟩] := by
    intro n
    simp [names]
  have hv1 : ∀ n, lastVersion [⟨"a", ""⟩, ⟨"a", "1"⟩] n = lastVersion [⟨"a", "1"⟩] n := by
    intro n
    by_cases h : "a" = n <;> simp [lastVersion, List.filter, h]
  have hn2 : ∀ n, n ∈ names [⟨"a", "0"⟩, ⟨"a", "1"⟩] ↔ n ∈ names [⟨"a", "1"⟩] := by
    intro n
    simp [names]
  have hv2 : ∀ n, lastVersion [⟨"a", "0"⟩, ⟨"a", "1"⟩] n = lastVersion [⟨"a", "1"⟩] n := by
    intro n
    by_cases h : "a" = n <;> simp [lastVersion, List.filter, h]
  ⟨fun l => List.Perm.refl l, hn1, hv1, hn2, hv2,
    sort_packages_last_value_view id (fun l => List.Perm.refl l) [⟨"a", ""⟩, ⟨"a", "1"⟩]
      [⟨"a", "1"⟩] [⟨"a", "0"⟩, ⟨"a", "1"⟩] [⟨"a", "1"⟩] hn1 hv1 hn2 hv2 ⟨"a", "1"⟩⟩

theorem get_pkg_blocks_witness :
    (∀ b ∈ [(⟨"foo", ["Depends: bar"], "1.0", [""]⟩ : Block), ⟨"bar", [], "2", []⟩,
        ⟨"foo", [], "1.1", []⟩], b.wellFormed) ∧
    (("foo" ∈ names (_get_pkg_loop (blockLines [⟨"foo", ["Depends: bar"], "1.0", [""]⟩,
          ⟨"bar", [], "2", []⟩, ⟨"foo", [], "1.1", []⟩])) ↔
      "foo" ∈ List.map Block.name [⟨"foo", ["Depends: bar"], "1.0", [""]⟩,
          ⟨"bar", [], "2", []⟩, ⟨"foo", [], "1.1", []⟩]) ∧
    lastVersion (_get_pkg_loop (blockLines [⟨"foo", ["Depends: bar"], "1.0", [""]⟩,
          ⟨"bar", [], "2", []⟩, ⟨"foo", [], "1.1", []⟩])) "foo" =
      lastVersion (List.map Block.record [⟨"foo", ["Depends: bar"], "1.0", [""]⟩,
          ⟨"bar", [], "2", []⟩, ⟨"foo", [], "1.1", []⟩]) "foo") :=
  ⟨by decide,
    get_pkg_blocks [⟨"foo", ["Depends: bar"], "1.0", [""]⟩, ⟨"bar", [], "2", []⟩,
      ⟨"foo", [], "1.1", []⟩] (by decide) "foo"⟩

theorem get_pkg_round_trip_witness :
    "foo" ≠ "" ∧ ¬ containsText "foo" "x-linux-isp-tool" ∧
    ((⟨"foo", "1.0"⟩ : packageInfo) ∈ _get_pkg_loop ["Package: " ++ "foo", "Version: " ++ "1.0"] ∧
    _get_pkg_loop ["Package: " ++ "foo", "Version: " ++ "1.0"] = [⟨"foo", ""⟩, ⟨"foo", "1.0"⟩]) :=
  ⟨by decide, by decide, get_pkg_round_trip "foo" "1.0" (by decide) (by decide)⟩

/-! ## A single `Package: ` line -/

theorem not_beginsWith_version_of_package (r : String) :
    ¬ beginsWith ("Package: " ++ r) "Version: " := by
  simp [beginsWith, packagePrefix_data, versionPrefix_data]

/-- The step on a line `Package: r` whose remainder contains the tool's name: the line
changes nothing. -/
theorem get_pkg_step_tool (st : packageInfo × List packageInfo) (r : String)
    (hr : containsText r toolName) :
    get_pkg_step st ("Package: " ++ r) =
      (st.1, if st.1.name ≠ "" then st.2 ++ [st.1] else st.2) := by
  have h1 : ¬ find ("Package: " ++ r) toolName = none :=
    fun h => (find_eq_none_iff _ _).1 h ((containsText_package_iff r).2 hr)
  have h2 : ¬ find ("Package: " ++ r) "Version: " = some 0 :=
    fun h => not_beginsWith_version_of_package r ((find_eq_zero_iff _ _).1 h)
  simp only [get_pkg_step, h1, h2, and_false, if_false]

/-- C11, as amended: a `Package: ` line is ignored exactly when its remainder contains
the tool's name. For a non-empty remainder `r`, the single line `Package: r` yields
exactly one record, named `r` with the empty version, when `r` does not contain the
text `x-linux-isp-tool`, and yields no record when `r` contains it. -/
theorem get_pkg_single_package_line (r : String) (hr : r ≠ "") :
    (¬ containsText r "x-linux-isp-tool" → _get_pkg_loop ["Package: " ++ r] = [⟨r, ""⟩]) ∧
    (containsText r "x-linux-isp-tool" → _get_pkg_loop ["Package: " ++ r] = []) := by
  constructor
  · intro h
    simp [_get_pkg_loop, get_pkg_run_cons, get_pkg_run_nil, get_pkg_step_package _ _ h, hr]
  · intro h
    simp [_get_pkg_loop, get_pkg_run_cons, get_pkg_run_nil, get_pkg_step_tool _ _ h]

/-- C11 as stated fails: the remainder `x-linux-isp-tool-dbg` is non-empty and differs
from the tool's name, yet the line is ignored and the output is empty. -/
theorem get_pkg_single_package_line_counterexample :
    "x-linux-isp-tool-dbg" ≠ "" ∧ "x-linux-isp-tool-dbg" ≠ "x-linux-isp-tool" ∧
    _get_pkg_loop ["Package: " ++ "x-linux-isp-tool-dbg"] = [] := by
  decide

theorem get_pkg_single_package_line_witness :
    "libcamera" ≠ "" ∧
    ((¬ containsText "libcamera" "x-linux-isp-tool" →
        _get_pkg_loop ["Package: " ++ "libcamera"] = [⟨"libcamera", ""⟩]) ∧
    (containsText "libcamera" "x-linux-isp-tool" →
        _get_pkg_loop ["Package: " ++ "libcamera"] = [])) :=
  ⟨by decide, get_pkg_single_package_line "libcamera" (by decide)⟩

/-! ## Claims on `_is_package_in_list` -/

theorem find_if_isSome (pred : packageInfo → Bool) (l : List packageInfo) :
    (find_if pred l).isSome = true ↔ ∃ p ∈ l, pred p = true := by
  induction l with
  | nil => simp [find_if]
  | cons q qs ih =>
    unfold find_if
    by_cases h : pred q = true
    · simp [h]
    · simp [h, ih]

theorem is_package_in_list_mem (l : List packageInfo) (n : String) :
    _is_package_in_list l n = true ↔ n ∈ names l := by
  unfold _is_package_in_list names
  rw [find_if_isSome, List.mem_map]
  simp

/-- C12: `_is_package_in_list` answers `true` exactly when some record of the list has
the given name, whatever the versions are; for `libcamera` it answers `false` exactly
on the lists without a record of that name, the empty list among them. -/
theorem is_package_in_list_iff (l : List packageInfo) (n : String) :
    (_is_package_in_list l n = true ↔ ∃ p ∈ l, p.name = n) ∧
    (_is_package_in_list l "libcamera" = false ↔ ∀ p ∈ l, p.name ≠ "libcamera") ∧
    _is_package_in_list [] "libcamera" = false := by
  refine ⟨?_, ?_, rfl⟩
  · rw [is_package_in_list_mem]
    simp [names]
  · rw [← Bool.not_eq_true, is_package_in_list_mem]
    simp [names]

/-- C18: in the install path the reload sequence is started, that is
`_is_package_in_list` answers `false` for `libcamera` on the installed list, exactly
when it is not the case that `libcamera` occurs in both inputs with the last catalog
version equal to the last status version. -/
theorem reload_decision (iter : List String → List String)
    (hiter : ∀ l, (iter l).Perm l) (catalog status : List packageInfo) :
    _is_package_in_list (_sort_packages iter catalog status).installedPackages "libcamera"
        = false ↔
      ¬ ("libcamera" ∈ names catalog ∧ "libcamera" ∈ names status ∧
          lastVersion catalog "libcamera" = lastVersion status "libcamera") := by
  rw [← Bool.not_eq_true, is_package_in_list_mem,
    (sort_packages_installed_iff_aux iter hiter catalog status "libcamera")]

/-! ## Claims on `_get_x_pkg_path` -/

theorem entry_path_ne_empty (dir filename : String) (hdir : dir ≠ "") :
    entry_path dir filename ≠ "" := by
  have hd : dir.data ≠ [] := fun h => hdir (String.ext h)
  unfold entry_path
  split
  · intro h
    have h2 := congrArg String.data h
    simp only [String.data_append] at h2
    exact hd (List.append_eq_nil.1 h2).1
  · intro h
    have h2 := congrArg String.data h
    simp only [String.data_append, List.append_assoc] at h2
    exact hd (List.append_eq_nil.1 h2).1

theorem search_entries_none_iff (pattern : String → Bool) (dir : String)
    (es : List DirEntry) :
    search_entries pattern dir es = none ↔ ∀ e ∈ es, ¬ matchingEntry pattern e := by
  induction es with
  | nil => simp [search_entries]
  | cons e es ih =>
    unfold search_entries
    by_cases h1 : e.is_regular_file = true
    · by_cases h2 : pattern e.filename = true
      · simp [h1, h2, matchingEntry]
      · simp [h1, h2, ih, matchingEntry]
    · simp [h1, ih, matchingEntry]

theorem search_entries_first (pattern : String → Bool) (dir : String)
    (es1 es2 : List DirEntry) (e : DirEntry)
    (h1 : ∀ e2 ∈ es1, ¬ matchingEntry pattern e2) (h2 : matchingEntry pattern e) :
    search_entries pattern dir (es1 ++ e :: es2) = some (entry_path dir e.filename) := by
  induction es1 with
  | nil => simp [search_entries, h2.1, h2.2]
  | cons a as ih =>
    have ha : ¬ matchingEntry pattern a := h1 a (List.mem_cons_self _ _)
    have ih2 := ih (fun e2 he2 => h1 e2 (List.mem_cons_of_mem _ he2))
    rw [List.cons_append]
    unfold search_entries
    by_cases c1 : a.is_regular_file = true
    · by_cases c2 : pattern a.filename = true
      · exact absurd ⟨c1, c2⟩ ha
      · simp [c1, c2, ih2]
    · simp [c1, ih2]

theorem search_entries_some (pattern : String → Bool) (dir : String) (es : List DirEntry)
    (path : String) (h : search_entries pattern dir es = some path) :
    ∃ e ∈ es, matchingEntry pattern e ∧ path = entry_path dir e.filename := by
  induction es with
  | nil => simp [search_entries] at h
  | cons a as ih =>
    unfold search_entries at h
    by_cases c1 : a.is_regular_file = true
    · by_cases c2 : pattern a.filename = true
      · simp only [c1, c2, if_true, Option.some.injEq] at h
        exact ⟨a, List.mem_cons_self _ _, ⟨c1, c2⟩, h.symm⟩
      · simp only [c1, c2, if_true, if_false] at h
        obtain ⟨e, he, hm, hp⟩ := ih h
        exact ⟨e, List.mem_cons_of_mem _ he, hm, hp⟩
    · simp only [c1, if_false] at h
      obtain ⟨e, he, hm, hp⟩ := ih h
      exact ⟨e, List.mem_cons_of_mem _ he, hm, hp⟩

theorem get_x_pkg_path_cons_none (fs : String → Option (List DirEntry))
    (pattern : String → Bool) (d : String) (ds : List String) (h : fs d = none) :
    _get_x_pkg_path fs pattern (d :: ds) = _get_x_pkg_path fs pattern ds := by
  rw [_get_x_pkg_path, h]

theorem get_x_pkg_path_cons_pass (fs : String → Option (List DirEntry))
    (pattern : String → Bool) (d : String) (ds : List String) (es : List DirEntry)
    (h : fs d = some es) (hs : search_entries pattern d es = none) :
    _get_x_pkg_path fs pattern (d :: ds) = _get_x_pkg_path fs pattern ds := by
  rw [_get_x_pkg_path, h]
  simp only [hs]

theorem get_x_pkg_path_cons_found (fs : String → Option (List DirEntry))
    (pattern : String → Bool) (d : String) (ds : List String) (es : List DirEntry)
    (path : String) (h : fs d = some es) (hs : search_entries pattern d es = some path) :
    _get_x_pkg_path fs pattern (d :: ds) = path := by
  rw [_get_x_pkg_path, h]
  simp only [hs]

/-- Directories that are missing or hold no matching regular file are passed over. -/
theorem get_x_pkg_path_skip (fs : String → Option (List DirEntry))
    (pattern : String → Bool) (pre rest : List String)
    (h : ∀ d ∈ pre, ∀ es, fs d = some es → ∀ e ∈ es, ¬ matchingEntry pattern e) :
    _get_x_pkg_path fs pattern (pre ++ rest) = _get_x_pkg_path fs pattern rest := by
  induction pre with
  | nil => rfl
  | cons d ds ih =>
    have ih2 := ih (fun d2 hd2 => h d2 (List.mem_cons_of_mem _ hd2))
    rw [List.cons_append]
    cases hfs : fs d with
    | none => rw [get_x_pkg_path_cons_none _ _ _ _ hfs, ih2]
    | some es =>
      have hnone : search_entries pattern d es = none :=
        (search_entries_none_iff _ _ _).2 (h d (List.mem_cons_self _ _) es hfs)
      rw [get_x_pkg_path_cons_pass _ _ _ _ _ hfs hnone, ih2]

theorem get_x_pkg_path_eq_empty_iff (fs : String → Option (List DirEntry))
    (pattern : String → Bool) (directories : List String) (hfs : fs "" = none) :
    _get_x_pkg_path fs pattern directories = "" ↔
      ∀ d ∈ directories, ∀ es, fs d = some es → ∀ e ∈ es, ¬ matchingEntry pattern e := by
  induction directories with
  | nil => simp [_get_x_pkg_path]
  | cons d ds ih =>
    cases hd : fs d with
    | none =>
      rw [get_x_pkg_path_cons_none _ _ _ _ hd, ih]
      simp [hd]
    | some es =>
      have hne : d ≠ "" := by
        intro e
        rw [e, hfs] at hd
        exact Option.noConfusion hd
      cases hs : search_entries pattern d es with
      | none =>
        have hno := (search_entries_none_iff _ _ _).1 hs
        rw [get_x_pkg_path_cons_pass _ _ _ _ _ hd hs, ih]
        simp only [List.mem_cons, forall_eq_or_imp, hd, Option.some.injEq]
        constructor
        · intro h
          exact ⟨fun es2 he2 => he2 ▸ hno, h⟩
        · exact fun h => h.2
      | some path =>
        obtain ⟨e, he, hm, hp⟩ := search_entries_some _ _ _ _ hs
        rw [get_x_pkg_path_cons_found _ _ _ _ _ _ hd hs, hp]
        simp only [List.mem_cons, forall_eq_or_imp, hd, Option.some.injEq]
        constructor
        · intro h
          exact absurd h (entry_path_ne_empty d e.filename hne)
        · intro h
          exact absurd hm (h.1 es rfl e he)

/-- C13: `_get_x_pkg_path` returns the path of the first matching regular file of the
first candidate directory, in list order, that exists and has one; and it returns the
empty string exactly when no existing candidate directory has a matching regular
file. The empty path is not an existing directory. -/
theorem get_x_pkg_path_first (fs : String → Option (List DirEntry))
    (pattern : String → Bool) (directories : List String) (hfs : fs "" = none) :
    (∀ pre d post es1 e es2, directories = pre ++ d :: post →
        fs d = some (es1 ++ e :: es2) →
        (∀ d2 ∈ pre, ∀ es, fs d2 = some es → ∀ e2 ∈ es, ¬ matchingEntry pattern e2) →
        (∀ e2 ∈ es1, ¬ matchingEntry pattern e2) → matchingEntry pattern e →
        _get_x_pkg_path fs pattern directories = entry_path d e.filename) ∧
    (_get_x_pkg_path fs pattern directories = "" ↔
      ∀ d ∈ directories, ∀ es, fs d = some es → ∀ e ∈ es, ¬ matchingEntry pattern e) := by
  refine ⟨?_, get_x_pkg_path_eq_empty_iff fs pattern directories hfs⟩
  intro pre d post es1 e es2 hdirs hd hpre hes1 he
  rw [hdirs, get_x_pkg_path_skip fs pattern pre (d :: post) hpre]
  exact get_x_pkg_path_cons_found _ _ _ _ _ _ hd
    (search_entries_first pattern d es1 es2 e hes1 he)

/-! ## Claims on `main` and the reload sequence -/

theorem manage_command_ne_stop (argv2 : String) (install : Bool) :
    manage_command argv2 install ≠ "systemctl stop weston-graphical-session" := by
  intro h
  have h2 := congrArg String.data h
  cases install
  · have e : "apt-get autoremove -y ".data = 'a' :: "pt-get autoremove -y ".data := rfl
    have e2 : "systemctl stop weston-graphical-session".data =
        's' :: "ystemctl stop weston-graphical-session".data := rfl
    simp [manage_command, e, e2] at h2
  · have e : "apt-get update && apt-get install -y ".data =
        'a' :: "pt-get update && apt-get install -y ".data := rfl
    have e2 : "systemctl stop weston-graphical-session".data =
        's' :: "ystemctl stop weston-graphical-session".data := rfl
    simp [manage_command, e, e2] at h2

theorem reload_exitCode (system : String → Int) : (reload system).exitCode = 0 := by
  unfold reload
  split_ifs <;> rfl

theorem reload_commands_cases (system : String → Int) :
    (system "systemctl stop weston-graphical-session" ≠ 0 ∧
      (reload system).commands = ["systemctl stop weston-graphical-session"]) ∨
    (system "systemctl stop weston-graphical-session" = 0 ∧
      system "modprobe -r stm32_dcmipp" ≠ 0 ∧
      (reload system).commands =
        ["systemctl stop weston-graphical-session", "modprobe -r stm32_dcmipp"]) ∨
    (system "systemctl stop weston-graphical-session" = 0 ∧
      system "modprobe -r stm32_dcmipp" = 0 ∧ system "modprobe stm32_dcmipp" ≠ 0 ∧
      (reload system).commands =
        ["systemctl stop weston-graphical-session", "modprobe -r stm32_dcmipp",
          "modprobe stm32_dcmipp"]) ∨
    (system "systemctl stop weston-graphical-session" = 0 ∧
      system "modprobe -r stm32_dcmipp" = 0 ∧ system "modprobe stm32_dcmipp" = 0 ∧
      (reload system).commands = reload_commands) := by
  unfold reload reload_commands
  by_cases h1 : system "systemctl stop weston-graphical-session" = 0
  · by_cases h2 : system "modprobe -r stm32_dcmipp" = 0
    · by_cases h3 : system "modprobe stm32_dcmipp" = 0
      · by_cases h4 : system "systemctl start weston-graphical-session" = 0 <;>
          simp [h1, h2, h3, h4]
      · simp [h1, h2, h3]
    · simp [h1, h2]
  · simp [h1]

/-- The commands a run of `main` hands to `system`, and its exit code. -/
theorem main_dispatch_cases (env : Env) (fl : Flags) (x_pkg ostl_pkg : List packageInfo) :
    (main_dispatch env fl x_pkg ostl_pkg).commands = [] ∨
    (main_dispatch env fl x_pkg ostl_pkg).commands = [manage_command env.argv2 false] ∨
    (main_dispatch env fl x_pkg ostl_pkg).commands = [manage_command env.argv2 true] ∨
    ((main_dispatch env fl x_pkg ostl_pkg).commands =
        manage_command env.argv2 true :: (reload env.system).commands ∧
      (main_dispatch env fl x_pkg ostl_pkg).exitCode = 0) := by
  unfold main_dispatch
  simp only []
  split_ifs <;> simp [reload_exitCode]

theorem main_cases (env : Env) :
    (main env).commands = [] ∨
    (main env).commands = [manage_command env.argv2 false] ∨
    (main env).commands = [manage_command env.argv2 true] ∨
    ((main env).commands = manage_command env.argv2 true :: (reload env.system).commands ∧
      (main env).exitCode = 0) := by
  unfold main
  split
  · exact Or.inl rfl
  · split_ifs
    · exact Or.inl rfl
    · exact Or.inl rfl
    · split
      · exact Or.inl rfl
      · split_ifs
        · exact Or.inl rfl
        · simp only []
          split_ifs
          · exact Or.inl rfl
          · split
            · exact Or.inl rfl
            · split
              · exact Or.inl rfl
              · exact main_dispatch_cases _ _ _ _

/-- A run that issues the first reload command is a run of the install path followed
by the reload sequence, and it ends with exit code `0`. -/
theorem main_reaches_reload (env : Env)
    (h : "systemctl stop weston-graphical-session" ∈ (main env).commands) :
    (main env).commands = manage_command env.argv2 true :: (reload env.system).commands ∧
      (main env).exitCode = 0 := by
  rcases main_cases env with h1 | h1 | h1 | h1
  · rw [h1] at h
    exact absurd h (List.not_mem_nil _)
  · rw [h1, List.mem_singleton] at h
    exact absurd h.symm (manage_command_ne_stop _ _)
  · rw [h1, List.mem_singleton] at h
    exact absurd h.symm (manage_command_ne_stop _ _)
  · exact h1

/-- C14, as amended: a run that reaches the reload sequence and in which one of the
four reload commands returns a non-zero status ends with exit code `0`, right after a
reload command that returned a non-zero status. -/
theorem main_reload_failure_exit_code (env : Env)
    (hreach : "systemctl stop weston-graphical-session" ∈ (main env).commands)
    (hfail : ∃ c ∈ reload_commands, env.system c ≠ 0) :
    (main env).exitCode = 0 ∧
      ∃ c ∈ reload_commands, env.system c ≠ 0 ∧ (main env).commands.getLast? = some c := by
  obtain ⟨hcmd, hexit⟩ := main_reaches_reload env hreach
  refine ⟨hexit, ?_⟩
  rw [hcmd]
  rcases reload_commands_cases env.system with ⟨h1, hc⟩ | ⟨_, h2, hc⟩ | ⟨_, _, h3, hc⟩ |
    ⟨h1, h2, h3, hc⟩
  · exact ⟨_, by simp [reload_commands], h1, by simp [hc]⟩
  · exact ⟨_, by simp [reload_commands], h2, by simp [hc]⟩
  · exact ⟨_, by simp [reload_commands], h3, by simp [hc]⟩
  · obtain ⟨c, hmem, hne⟩ := hfail
    have h4 : env.system "systemctl start weston-graphical-session" ≠ 0 := by
      simp only [reload_commands, List.mem_cons, List.mem_singleton, List.not_mem_nil,
        or_false] at hmem
      rcases hmem with e | e | e | e
      · exact absurd (e ▸ h1) hne
      · exact absurd (e ▸ h2) hne
      · exact absurd (e ▸ h3) hne
      · exact e ▸ hne
    exact ⟨_, by simp [reload_commands], h4, by simp [hc, reload_commands]⟩

/-- C14 as stated fails: in the sample run the reload sequence is reached and
`modprobe -r stm32_dcmipp` returns `1`, yet the exit code is `0`. -/
theorem main_reload_failure_counterexample :
    "systemctl stop weston-graphical-session" ∈
      (main (sampleEnv (fun c => if c = "modprobe -r stm32_dcmipp" then 1 else 0))).commands ∧
    (fun c => if c = "modprobe -r stm32_dcmipp" then (1 : Int) else 0)
      "modprobe -r stm32_dcmipp" ≠ 0 ∧
    (main (sampleEnv (fun c => if c = "modprobe -r stm32_dcmipp" then 1 else 0))).exitCode
      = 0 := by
  decide

theorem main_reload_failure_exit_code_witness :
    "systemctl stop weston-graphical-session" ∈
      (main (sampleEnv (fun c =>
        if c = "systemctl start weston-graphical-session" then 3 else 0))).commands ∧
    (∃ c ∈ reload_commands, (sampleEnv (fun c =>
        if c = "systemctl start weston-graphical-session" then 3 else 0)).system c ≠ 0) ∧
    ((main (sampleEnv (fun c =>
        if c = "systemctl start weston-graphical-session" then 3 else 0))).exitCode = 0 ∧
      ∃ c ∈ reload_commands, (sampleEnv (fun c =>
        if c = "systemctl start weston-graphical-session" then 3 else 0)).system c ≠ 0 ∧
        (main (sampleEnv (fun c =>
          if c = "systemctl start weston-graphical-session" then 3 else 0))).commands.getLast?
          = some c) :=
  ⟨by decide, ⟨"systemctl start weston-graphical-session", by decide, by decide⟩,
    main_reload_failure_exit_code _ (by decide)
      ⟨"systemctl start weston-graphical-session", by decide, by decide⟩⟩

/-- The reload sequence issues exactly the commands of a run of the four reload
commands, in their order, that stops after the first failure. -/
theorem reload_commands_eq (system : String → Int) :
    (reload system).commands = issuedUntilFailure system reload_commands := by
  rcases reload_commands_cases system with ⟨h1, hc⟩ | ⟨h1, h2, hc⟩ | ⟨h1, h2, h3, hc⟩ |
    ⟨h1, h2, h3, hc⟩
  · simp [hc, issuedUntilFailure, reload_commands, h1]
  · simp [hc, issuedUntilFailure, reload_commands, h1, h2]
  · simp [hc, issuedUntilFailure, reload_commands, h1, h2, h3]
  · simp [hc, issuedUntilFailure, reload_commands, h1, h2, h3]

/-- C19: the reload sequence issues exactly the commands that a run of stop
weston-graphical-session, modprobe -r stm32_dcmipp, modprobe stm32_dcmipp, start
weston-graphical-session, in this order, issues when each command is started after
the one before it has returned `0` and the run stops after the first command that
returns a non-zero status. So the commands issued are a beginning of the four, the
first is always issued, every command that is followed by another one returned `0`,
none is issued twice, and either all four are issued or the last one issued returned
a non-zero status. `main` hands to `system` either nothing, or one package-manager
command, or the install command followed by the reload sequence; and in the install
path, after a successful install command with `libcamera` not in the installed list,
it hands over exactly the install command followed by that run. -/
theorem reload_order (env : Env) :
    (reload env.system).commands = issuedUntilFailure env.system reload_commands ∧
    (reload env.system).commands <+: reload_commands ∧
    (reload env.system).commands.head? = some "systemctl stop weston-graphical-session" ∧
    (∀ c ∈ (reload env.system).commands.dropLast, env.system c = 0) ∧
    (reload env.system).commands.Nodup ∧
    ((reload env.system).commands = reload_commands ∨
      ∃ c, (reload env.system).commands.getLast? = some c ∧ env.system c ≠ 0) ∧
    ((main env).commands = [] ∨
      (main env).commands = [manage_command env.argv2 false] ∨
      (main env).commands = [manage_command env.argv2 true] ∨
      (main env).commands = manage_command env.argv2 true :: (reload env.system).commands) ∧
    (∀ (fl : Flags) (x_pkg ostl_pkg : List packageInfo),
      fl.list = false → fl.to_install = true → env.argc = 3 →
      env.system (manage_command env.argv2 true) = 0 →
      _is_package_in_list (_sort_packages env.iter x_pkg ostl_pkg).installedPackages
        "libcamera" = false →
      (main_dispatch env fl x_pkg ostl_pkg).commands =
        manage_command env.argv2 true :: issuedUntilFailure env.system reload_commands) := by
  refine ⟨reload_commands_eq env.system, ?_, ?_, ?_, ?_, ?_, ?_, ?_⟩
  · rcases reload_commands_cases env.system with ⟨_, hc⟩ | ⟨_, _, hc⟩ | ⟨_, _, _, hc⟩ |
      ⟨_, _, _, hc⟩ <;> rw [hc] <;> decide
  · rcases reload_commands_cases env.system with ⟨_, hc⟩ | ⟨_, _, hc⟩ | ⟨_, _, _, hc⟩ |
      ⟨_, _, _, hc⟩ <;> rw [hc] <;> rfl
  · rcases reload_commands_cases env.system with ⟨_, hc⟩ | ⟨h1, _, hc⟩ | ⟨h1, h2, _, hc⟩ |
      ⟨h1, h2, h3, hc⟩
    · simp [hc]
    · simp [hc, h1]
    · simp [hc, h1, h2]
    · simp [hc, reload_commands, h1, h2, h3]
  · rcases reload_commands_cases env.system with ⟨_, hc⟩ | ⟨_, _, hc⟩ | ⟨_, _, _, hc⟩ |
      ⟨_, _, _, hc⟩ <;> rw [hc] <;> decide
  · rcases reload_commands_cases env.system with ⟨h1, hc⟩ | ⟨_, h2, hc⟩ | ⟨_, _, h3, hc⟩ |
      ⟨_, _, _, hc⟩
    · exact Or.inr ⟨_, by simp [hc], h1⟩
    · exact Or.inr ⟨_, by simp [hc], h2⟩
    · exact Or.inr ⟨_, by simp [hc], h3⟩
    · exact Or.inl hc
  · rcases main_cases env with h | h | h | h
    · exact Or.inl h
    · exact Or.inr (Or.inl h)
    · exact Or.inr (Or.inr (Or.inl h))
    · exact Or.inr (Or.inr (Or.inr h.1))
  · intro fl x_pkg ostl_pkg hlist hinst hargc hsys hcam
    rw [← reload_commands_eq]
    simp [main_dispatch, hlist, hinst, hargc, manage_pkgs, hsys, hcam]

theorem reload_order_witness :
    (reload (sampleEnv (fun c => if c = "modprobe stm32_dcmipp" then 2 else 0)).system).commands
      = ["systemctl stop weston-graphical-session", "modprobe -r stm32_dcmipp",
          "modprobe stm32_dcmipp"] ∧
    (main_dispatch (sampleEnv (fun c => if c = "modprobe stm32_dcmipp" then 2 else 0))
        ⟨false, false, true, false, false⟩ [⟨"libcamera", "1"⟩] [⟨"bash", "5"⟩]).commands =
      manage_command "libcamera" true ::
        issuedUntilFailure (fun c => if c = "modprobe stm32_dcmipp" then 2 else 0)
          reload_commands :=
  ⟨(reload_order (sampleEnv (fun c => if c = "modprobe stm32_dcmipp" then 2 else 0))).1.trans
      (by decide),
    (reload_order (sampleEnv (fun c => if c = "modprobe stm32_dcmipp" then 2 else 0))).2.2.2.2.2.2.2
      ⟨false, false, true, false, false⟩ [⟨"libcamera", "1"⟩] [⟨"bash", "5"⟩]
      rfl rfl rfl (by decide) (by decide)⟩

/-! ## How single lines move the parser state -/

theorem get_pkg_run_concat (st : packageInfo × List packageInfo) (ls : List String)
    (l : String) : get_pkg_run st (ls ++ [l]) = get_pkg_step (get_pkg_run st ls) l := by
  rw [get_pkg_run_append]
  rfl

/-- A line that does not begin with `Package: ` leaves the current name alone. -/
theorem get_pkg_step_name (st : packageInfo × List packageInfo) (line : String)
    (h : ¬ beginsWith line "Package: ") : (get_pkg_step st line).1.name = st.1.name := by
  have h1 : ¬ find line "Package: " = some 0 := fun e => h ((find_eq_zero_iff _ _).1 e)
  rw [get_pkg_step_fst]
  by_cases h2 : find line "Version: " = some 0 <;> simp [h1, h2]

/-- A line that does not begin with `Version: ` leaves the current version alone. -/
theorem get_pkg_step_version_eq (st : packageInfo × List packageInfo) (line : String)
    (h : ¬ beginsWith line "Version: ") :
    (get_pkg_step st line).1.version = st.1.version := by
  have h2 : ¬ find line "Version: " = some 0 := fun e => h ((find_eq_zero_iff _ _).1 e)
  rw [get_pkg_step_fst]
  by_cases h1 : find line "Package: " = some 0 ∧ find line toolName = none <;> simp [h1, h2]

/-- A line that begins with `Package: ` is that prefix followed by `substr line 9`. -/
theorem eq_package_append_substr (line : String) (h : beginsWith line "Package: ") :
    line = "Package: " ++ substr line 9 := by
  obtain ⟨t, ht⟩ := h
  apply String.ext
  rw [String.data_append, substr, ← ht]
  simp [packagePrefix_data]

/-- Only the line `Package: n` can make `n` the current name. -/
theorem get_pkg_step_name_ne (st : packageInfo × List packageInfo) (line n : String)
    (hst : st.1.name ≠ n) (hline : line ≠ "Package: " ++ n) :
    (get_pkg_step st line).1.name ≠ n := by
  rw [get_pkg_step_fst]
  by_cases h1 : find line "Package: " = some 0 ∧ find line toolName = none
  · simp only [h1, and_self, if_true]
    intro e
    apply hline
    have h3 := eq_package_append_substr line ((find_eq_zero_iff _ _).1 h1.1)
    rw [e] at h3
    exact h3
  · by_cases h2 : find line "Version: " = some 0 <;> simpa [h1, h2] using hst

/-- The output only grows. -/
theorem get_pkg_step_mono (st : packageInfo × List packageInfo) (line : String)
    (p : packageInfo) (hp : p ∈ st.2) : p ∈ (get_pkg_step st line).2 := by
  rw [get_pkg_step_snd]
  split
  · exact List.mem_append_left _ hp
  · exact hp

theorem get_pkg_run_mono (lines : List String) (st : packageInfo × List packageInfo)
    (p : packageInfo) (hp : p ∈ st.2) : p ∈ (get_pkg_run st lines).2 := by
  induction lines generalizing st with
  | nil => exact hp
  | cons l ls ih =>
    rw [get_pkg_run_cons]
    exact ih _ (get_pkg_step_mono st l p hp)

/-- A record of the output after a step is an old one or the current record. -/
theorem get_pkg_step_mem (st : packageInfo × List packageInfo) (line : String)
    (p : packageInfo) (hp : p ∈ (get_pkg_step st line).2) :
    p ∈ st.2 ∨ (p = (get_pkg_step st line).1 ∧ p.name ≠ "") := by
  rw [get_pkg_step_snd] at hp
  by_cases hE : (get_pkg_step st line).1.name ≠ ""
  · rw [if_pos hE, List.mem_append, List.mem_singleton] at hp
    rcases hp with hp | hp
    · exact Or.inl hp
    · exact Or.inr ⟨hp, hp ▸ hE⟩
  · rw [if_neg hE] at hp
    exact Or.inl hp

/-- Without a line beginning with `Version: `, every version stays empty. -/
theorem get_pkg_run_no_version (lines : List String) (st : packageInfo × List packageInfo)
    (h1 : st.1.version = "") (h2 : ∀ p ∈ st.2, p.version = "")
    (hl : ∀ l ∈ lines, ¬ beginsWith l "Version: ") :
    (get_pkg_run st lines).1.version = "" ∧ ∀ p ∈ (get_pkg_run st lines).2, p.version = "" := by
  induction lines generalizing st with
  | nil => exact ⟨h1, h2⟩
  | cons l ls ih =>
    rw [get_pkg_run_cons]
    have hv : (get_pkg_step st l).1.version = "" := by
      rw [get_pkg_step_version_eq st l (hl l (List.mem_cons_self _ _)), h1]
    refine ih _ hv ?_ (fun l2 h => hl l2 (List.mem_cons_of_mem _ h))
    intro p hp
    rcases get_pkg_step_mem st l p hp with h | h
    · exact h2 p h
    · rw [h.1]
      exact hv

/-- Without a line `Package: n`, no new record named `n` is produced. -/
theorem get_pkg_run_name_ne (lines : List String) (st : packageInfo × List packageInfo)
    (n v : String) (h1 : st.1.name ≠ n) (h2 : ∀ p ∈ st.2, p.name = n → p.version = v)
    (hl : ∀ l ∈ lines, l ≠ "Package: " ++ n) :
    ∀ p ∈ (get_pkg_run st lines).2, p.name = n → p.version = v := by
  induction lines generalizing st with
  | nil => exact h2
  | cons l ls ih =>
    rw [get_pkg_run_cons]
    have hn := get_pkg_step_name_ne st l n h1 (hl l (List.mem_cons_self _ _))
    refine ih _ hn ?_ (fun l2 h => hl l2 (List.mem_cons_of_mem _ h))
    intro p hp hpn
    rcases get_pkg_step_mem st l p hp with h | h
    · exact h2 p h hpn
    · exact absurd (h.1 ▸ hpn) hn

/-- The step on a line that begins with `Package: ` and does not contain the tool's
name: the current name becomes the remainder of the line. -/
theorem get_pkg_step_fst_package (st : packageInfo × List packageInfo) (line : String)
    (h1 : beginsWith line "Package: ") (h2 : ¬ containsText line toolName) :
    (get_pkg_step st line).1 = ⟨substr line 9, st.1.version⟩ := by
  have c1 : find line "Package: " = some 0 := (find_eq_zero_iff _ _).2 h1
  have c2 : find line toolName = none := (find_eq_none_iff _ _).2 h2
  rw [get_pkg_step_fst]
  simp [c1, c2]

/-- C15, as amended: when no line before the line `Package: n` begins with `Version: `,
the line `Package: n` (with `n` non-empty, not containing the tool's name and named
by no later line) is followed by lines that begin with neither prefix, and the input
then ends or goes on with a line that begins with `Package: ` and does not contain the
tool's name, the output has the record `{n, ""}` and every output record named `n` has
the empty version. -/
theorem get_pkg_version_never_set (pre mid post : List String) (n : String)
    (hne : n ≠ "") (hnt : ¬ containsText n "x-linux-isp-tool")
    (hpre : ∀ l ∈ pre, ¬ beginsWith l "Version: ")
    (hmid : ∀ l ∈ mid, otherLine l)
    (hpost : ∀ l rest, post = l :: rest →
      beginsWith l "Package: " ∧ ¬ containsText l "x-linux-isp-tool")
    (hother : ∀ l ∈ post, l ≠ "Package: " ++ n) :
    (⟨n, ""⟩ : packageInfo) ∈ _get_pkg_loop (pre ++ ["Package: " ++ n] ++ mid ++ post) ∧
    ∀ p ∈ _get_pkg_loop (pre ++ ["Package: " ++ n] ++ mid ++ post),
      p.name = n → p.version = "" := by
  unfold _get_pkg_loop
  have hpre1 := get_pkg_run_no_version pre (⟨"", ""⟩, []) rfl
    (fun q hq => absurd hq (List.not_mem_nil q)) hpre
  have hhead : ∀ l ∈ pre ++ ["Package: " ++ n] ++ mid, ¬ beginsWith l "Version: " := by
    intro l hl
    simp only [List.mem_append, List.mem_singleton] at hl
    rcases hl with (hl | hl) | hl
    · exact hpre l hl
    · rw [hl]
      exact not_beginsWith_version_of_package n
    · exact (hmid l hl).2
  have h3 := get_pkg_run_no_version (pre ++ ["Package: " ++ n] ++ mid) (⟨"", ""⟩, []) rfl
    (fun q hq => absurd hq (List.not_mem_nil q)) hhead
  constructor
  · rw [List.append_assoc, List.append_assoc, get_pkg_run_append, List.singleton_append,
      get_pkg_run_cons]
    apply get_pkg_run_mono
    rw [get_pkg_step_package _ _ hnt, hpre1.1]
    simp [hne]
  · rw [get_pkg_run_append]
    cases post with
    | nil =>
      intro p hp _
      exact h3.2 p hp
    | cons l rest =>
      obtain ⟨hb, hc⟩ := hpost l rest rfl
      rw [get_pkg_run_cons]
      have hcur := get_pkg_step_fst_package
        (get_pkg_run (⟨"", ""⟩, []) (pre ++ ["Package: " ++ n] ++ mid)) l hb hc
      have hln : l ≠ "Package: " ++ n := hother l (List.mem_cons_self _ _)
      apply get_pkg_run_name_ne rest _ n ""
      · rw [hcur]
        intro e
        apply hln
        have h5 := eq_package_append_substr l hb
        simp only at e
        rw [e] at h5
        exact h5
      · intro p hp _
        rcases get_pkg_step_mem _ l p hp with h | h
        · exact h3.2 p h
        · rw [h.1, hcur]
          exact h3.1
      · exact fun l2 h => hother l2 (List.mem_cons_of_mem _ h)

/-- C15 as stated fails: the line `Package: n` is followed by no line at all and `n` is
named by no other line, but the record named `n` carries the version `1` that an
earlier block has set. -/
theorem get_pkg_version_never_set_counterexample :
    (⟨"n", "1"⟩ : packageInfo) ∈ _get_pkg_loop ["Package: a", "Version: 1", "Package: n"] ∧
    "1" ≠ "" := by
  decide

theorem get_pkg_version_never_set_witness :
    "n" ≠ "" ∧ ¬ containsText "n" "x-linux-isp-tool" ∧
    (∀ l ∈ ["Package: a", "Depends: b"], ¬ beginsWith l "Version: ") ∧
    (∀ l ∈ ["Depends: c"], otherLine l) ∧
    (∀ l rest, ["Package: d", "Version: 2"] = l :: rest →
      beginsWith l "Package: " ∧ ¬ containsText l "x-linux-isp-tool") ∧
    (∀ l ∈ ["Package: d", "Version: 2"], l ≠ "Package: " ++ "n") ∧
    ((⟨"n", ""⟩ : packageInfo) ∈ _get_pkg_loop (["Package: a", "Depends: b"] ++
        ["Package: " ++ "n"] ++ ["Depends: c"] ++ ["Package: d", "Version: 2"]) ∧
    ∀ p ∈ _get_pkg_loop (["Package: a", "Depends: b"] ++
        ["Package: " ++ "n"] ++ ["Depends: c"] ++ ["Package: d", "Version: 2"]),
      p.name = "n" → p.version = "") :=
  have hpost : ∀ l rest, ["Package: d", "Version: 2"] = l :: rest →
      beginsWith l "Package: " ∧ ¬ containsText l "x-linux-isp-tool" := by
    intro l rest h
    have hl : l = "Package: d" := (List.cons.inj h).1.symm
    rw [hl]
    decide
  ⟨by decide, by decide, by decide, by decide, hpost, by decide,
    get_pkg_version_never_set ["Package: a", "Depends: b"] ["Depends: c"]
      ["Package: d", "Version: 2"] "n" (by decide) (by decide) (by decide) (by decide)
      hpost (by decide)⟩

/-- C16, at the failing input: with the tool's block inserted after the block of `a`,
the last output record named `a` carries the tool's version `9`; without the inserted
block it carries the version `1`. -/
theorem get_pkg_tool_block_failing_input :
    lastVersion (_get_pkg_loop ["Package: a", "Version: 1"]) "a" = some "1" ∧
    lastVersion (_get_pkg_loop ["Package: a", "Version: 1",
      "Package: x-linux-isp-tool", "Version: 9"]) "a" = some "9" := by
  decide

/-! ## One record per line with a non-empty current name -/

theorem get_pkg_loop_concat (lines : List String) (l : String) :
    _get_pkg_loop (lines ++ [l]) =
      if (currentAfter (lines ++ [l])).name ≠ "" then
        _get_pkg_loop lines ++ [currentAfter (lines ++ [l])]
      else _get_pkg_loop lines := by
  unfold _get_pkg_loop currentAfter
  rw [get_pkg_run_concat, get_pkg_step_snd]

/-- The output lists, in order, the current record after each line, for the lines
after which the current name is non-empty. -/
theorem get_pkg_loop_eq_filter (lines : List String) :
    _get_pkg_loop lines =
      ((List.range lines.length).map (fun i => currentAfter (lines.take (i + 1)))).filter
        (fun c => decide (c.name ≠ "")) := by
  induction lines using List.reverseRecOn with
  | nil => rfl
  | append_singleton ls l ih =>
    have hmap : (List.range ls.length).map (fun i => currentAfter ((ls ++ [l]).take (i + 1)))
        = (List.range ls.length).map (fun i => currentAfter (ls.take (i + 1))) := by
      apply List.map_congr_left
      intro i hi
      rw [List.mem_range] at hi
      rw [List.take_append_of_le_length (Nat.succ_le_of_lt hi)]
    have hlast : (ls ++ [l]).take (ls.length + 1) = ls ++ [l] := by
      apply List.take_of_length_le
      simp
    rw [get_pkg_loop_concat, List.length_append, List.length_singleton, List.range_succ,
      List.map_append, List.filter_append, hmap, ← ih, List.map_singleton, hlast]
    by_cases h : (currentAfter (ls ++ [l])).name ≠ ""
    · simp [h]
    · simp only [h, if_false]
      simp only [ne_eq, not_not] at h
      simp [h]

/-- After a `Package: n` line, lines that do not begin with `Package: ` add one record
named `n` each. -/
theorem get_pkg_run_same_name (rest : List String) (st : packageInfo × List packageInfo)
    (hname : st.1.name ≠ "") (hrest : ∀ l ∈ rest, ¬ beginsWith l "Package: ") :
    (get_pkg_run st rest).2.length = st.2.length + rest.length ∧
      ∀ p ∈ (get_pkg_run st rest).2, p ∈ st.2 ∨ p.name = st.1.name := by
  induction rest generalizing st with
  | nil => exact ⟨rfl, fun p hp => Or.inl hp⟩
  | cons l ls ih =>
    have hn := get_pkg_step_name st l (hrest l (List.mem_cons_self _ _))
    have hne : (get_pkg_step st l).1.name ≠ "" := by
      rw [hn]
      exact hname
    have hsnd : (get_pkg_step st l).2 = st.2 ++ [(get_pkg_step st l).1] := by
      rw [get_pkg_step_snd, if_pos hne]
    obtain ⟨ih1, ih2⟩ := ih (get_pkg_step st l) hne
      (fun l2 h => hrest l2 (List.mem_cons_of_mem _ h))
    rw [get_pkg_run_cons]
    constructor
    · rw [ih1, hsnd, List.length_append, List.length_singleton, List.length_cons]
      omega
    · intro p hp
      rcases ih2 p hp with h | h
      · rw [hsnd, List.mem_append, List.mem_singleton] at h
        rcases h with h | h
        · exact Or.inl h
        · exact Or.inr (by rw [h, hn])
      · exact Or.inr (by rw [h, hn])

/-- Without a line beginning with `Package: ` the current name stays empty and
nothing is appended. -/
theorem get_pkg_run_no_package (lines : List String) (st : packageInfo × List packageInfo)
    (hname : st.1.name = "") (hl : ∀ l ∈ lines, ¬ beginsWith l "Package: ") :
    (get_pkg_run st lines).2 = st.2 := by
  induction lines generalizing st with
  | nil => rfl
  | cons l ls ih =>
    have hn : (get_pkg_step st l).1.name = "" := by
      rw [get_pkg_step_name st l (hl l (List.mem_cons_self _ _)), hname]
    have hsnd : (get_pkg_step st l).2 = st.2 := by
      rw [get_pkg_step_snd]
      simp [hn]
    rw [get_pkg_run_cons, ih _ hn (fun l2 h => hl l2 (List.mem_cons_of_mem _ h)), hsnd]

/-- C17: every output record has a non-empty name; the output holds, in order, one
record for each line after whose processing the current name is non-empty, namely
the current record at that point; an input that starts with `Package: n` (`n`
non-empty, not containing the tool's name) and has no later line beginning with
`Package: ` yields as many records as it has lines, all named `n`; an input with no
line beginning with `Package: ` yields no record. -/
theorem get_pkg_append_per_line (lines rest : List String) (n : String) :
    (∀ p ∈ _get_pkg_loop lines, p.name ≠ "") ∧
    (_get_pkg_loop lines =
      ((List.range lines.length).map (fun i => currentAfter (lines.take (i + 1)))).filter
        (fun c => decide (c.name ≠ ""))) ∧
    (n ≠ "" → ¬ containsText n "x-linux-isp-tool" →
      (∀ l ∈ rest, ¬ beginsWith l "Package: ") →
      (_get_pkg_loop (("Package: " ++ n) :: rest)).length = (("Package: " ++ n) :: rest).length ∧
        ∀ p ∈ _get_pkg_loop (("Package: " ++ n) :: rest), p.name = n) ∧
    ((∀ l ∈ lines, ¬ beginsWith l "Package: ") → _get_pkg_loop lines = []) := by
  refine ⟨?_, get_pkg_loop_eq_filter lines, ?_, ?_⟩
  · intro p hp
    rw [get_pkg_loop_eq_filter] at hp
    simpa using (List.mem_filter.1 hp).2
  · intro hne hnt hrest
    unfold _get_pkg_loop
    rw [get_pkg_run_cons, get_pkg_step_package _ _ hnt]
    simp only [hne, ne_eq, not_false_eq_true, if_true, List.nil_append]
    obtain ⟨h1, h2⟩ := get_pkg_run_same_name rest (⟨n, ""⟩, [⟨n, ""⟩]) hne hrest
    constructor
    · rw [h1]
      simp
      omega
    · intro p hp
      rcases h2 p hp with h | h
      · rw [List.mem_singleton] at h
        rw [h]
      · exact h
  · intro h
    exact get_pkg_run_no_package lines (⟨"", ""⟩, []) rfl h

theorem get_pkg_append_per_line_witness :
    "foo" ≠ "" ∧ ¬ containsText "foo" "x-linux-isp-tool" ∧
    (∀ l ∈ ["Version: 1.0", "Depends: bar", ""], ¬ beginsWith l "Package: ") ∧
    ((_get_pkg_loop (("Package: " ++ "foo") :: ["Version: 1.0", "Depends: bar", ""])).length =
        (("Package: " ++ "foo") :: ["Version: 1.0", "Depends: bar", ""]).length ∧
      ∀ p ∈ _get_pkg_loop (("Package: " ++ "foo") :: ["Version: 1.0", "Depends: bar", ""]),
        p.name = "foo") ∧
    (∀ l ∈ ["Version: 1.0", "Depends: bar", ""], ¬ beginsWith l "Package: ") ∧
    _get_pkg_loop ["Version: 1.0", "Depends: bar", ""] = [] :=
  ⟨by decide, by decide, by decide,
    (get_pkg_append_per_line ["Version: 1.0", "Depends: bar", ""]
      ["Version: 1.0", "Depends: bar", ""] "foo").2.2.1 (by decide) (by decide) (by decide),
    by decide,
    (get_pkg_append_per_line ["Version: 1.0", "Depends: bar", ""]
      ["Version: 1.0", "Depends: bar", ""] "foo").2.2.2 (by decide)⟩

/-! ## No name is classified twice -/

theorem sort_step_allNames (x o : StrMap) (acc : Sorted) (n v : String)
    (hx : StrMap.find x n = some v) :
    (sort_step x o acc n).allNames.Perm (acc.allNames ++ [n]) := by
  unfold sort_step
  rw [hx]
  cases StrMap.find o n with
  | none =>
    simp only [Sorted.allNames, names_concat]
    rw [← List.append_assoc]
  | some w =>
    by_cases hv : v = w
    · simp only [hv, if_true, Sorted.allNames, names_concat]
      rw [List.perm_iff_count]
      intro a
      simp only [List.count_append]
      omega
    · simp only [hv, if_false, Sorted.allNames, names_concat]
      rw [List.perm_iff_count]
      intro a
      simp only [List.count_append]
      omega

theorem sort_fold_allNames (x o : StrMap) (ns : List String) (acc : Sorted)
    (h : ∀ n ∈ ns, ∃ v, StrMap.find x n = some v) :
    (ns.foldl (sort_step x o) acc).allNames.Perm (acc.allNames ++ ns) := by
  induction ns generalizing acc with
  | nil => simp
  | cons n ns ih =>
    obtain ⟨v, hv⟩ := h n (List.mem_cons_self _ _)
    rw [List.foldl_cons]
    refine (ih _ (fun m hm => h m (List.mem_cons_of_mem _ hm))).trans ?_
    have hstep := sort_step_allNames x o acc n v hv
    have h2 := hstep.append_right ns
    rw [List.append_assoc, List.singleton_append] at h2
    exact h2

/-- The names of the three result lists are a rearrangement of the stored names. -/
theorem sort_packages_allNames (iter : List String → List String)
    (hiter : ∀ l, (iter l).Perm l) (catalog status : List packageInfo) :
    (_sort_packages iter catalog status).allNames.Perm (build_x catalog).2 := by
  unfold _sort_packages
  have h : ∀ n ∈ iter (build_x catalog).2, ∃ v, StrMap.find (build_x catalog).1 n = some v := by
    intro n hn
    rw [(hiter _).mem_iff, build_x_mem] at hn
    rw [build_x_find]
    exact (lastVersion_isSome_iff _ _).2 hn
  have h2 := sort_fold_allNames (build_x catalog).1 (build_ostl status)
    (iter (build_x catalog).2) ⟨[], [], []⟩ h
  simp only [Sorted.allNames, names, List.map_nil, List.nil_append] at h2
  exact h2.trans (hiter _)

/-- C20: no name occurs twice in the concatenation of the three result lists, and
their total length is the number of distinct names of the catalog. -/
theorem sort_packages_no_duplicate (iter : List String → List String)
    (hiter : ∀ l, (iter l).Perm l) (catalog status : List packageInfo) :
    (names (_sort_packages iter catalog status).installedPackages ++
      names (_sort_packages iter catalog status).upgradablePackages ++
      names (_sort_packages iter catalog status).uninstalledPackages).Nodup ∧
    (_sort_packages iter catalog status).installedPackages.length +
      (_sort_packages iter catalog status).upgradablePackages.length +
      (_sort_packages iter catalog status).uninstalledPackages.length =
        (names catalog).dedup.length := by
  have hperm := sort_packages_allNames iter hiter catalog status
  have hdedup : (build_x catalog).2.Perm (names catalog).dedup := by
    rw [List.perm_ext_iff_of_nodup (build_x_nodup catalog) (List.nodup_dedup _)]
    intro a
    rw [build_x_mem, List.mem_dedup]
  constructor
  · exact hperm.nodup_iff.2 (build_x_nodup catalog)
  · have hlen := (hperm.trans hdedup).length_eq
    simp only [Sorted.allNames, names, List.length_append, List.length_map] at hlen
    exact hlen

theorem sort_packages_no_duplicate_witness :
    (∀ l : List String, (id l).Perm l) ∧
    ((names (_sort_packages id [⟨"a", ""⟩, ⟨"a", "1"⟩, ⟨"b", "1"⟩, ⟨"b", "2"⟩]
        [⟨"a", "1"⟩]).installedPackages ++
      names (_sort_packages id [⟨"a", ""⟩, ⟨"a", "1"⟩, ⟨"b", "1"⟩, ⟨"b", "2"⟩]
        [⟨"a", "1"⟩]).upgradablePackages ++
      names (_sort_packages id [⟨"a", ""⟩, ⟨"a", "1"⟩, ⟨"b", "1"⟩, ⟨"b", "2"⟩]
        [⟨"a", "1"⟩]).uninstalledPackages).Nodup ∧
    (_sort_packages id [⟨"a", ""⟩, ⟨"a", "1"⟩, ⟨"b", "1"⟩, ⟨"b", "2"⟩]
        [⟨"a", "1"⟩]).installedPackages.length +
      (_sort_packages id [⟨"a", ""⟩, ⟨"a", "1"⟩, ⟨"b", "1"⟩, ⟨"b", "2"⟩]
        [⟨"a", "1"⟩]).upgradablePackages.length +
      (_sort_packages id [⟨"a", ""⟩, ⟨"a", "1"⟩, ⟨"b", "1"⟩, ⟨"b", "2"⟩]
        [⟨"a", "1"⟩]).uninstalledPackages.length =
        (names [⟨"a", ""⟩, ⟨"a", "1"⟩, ⟨"b", "1"⟩, ⟨"b", "2"⟩]).dedup.length) :=
  ⟨fun l => List.Perm.refl l,
    sort_packages_no_duplicate id (fun l => List.Perm.refl l)
      [⟨"a", ""⟩, ⟨"a", "1"⟩, ⟨"b", "1"⟩, ⟨"b", "2"⟩] [⟨"a", "1"⟩]⟩

theorem reload_decision_witness :
    (∀ l : List String, (id l).Perm l) ∧
    (_is_package_in_list (_sort_packages id [⟨"libcamera", "2"⟩]
        [⟨"libcamera", "1"⟩]).installedPackages "libcamera" = false ↔
      ¬ ("libcamera" ∈ names [⟨"libcamera", "2"⟩] ∧ "libcamera" ∈ names [⟨"libcamera", "1"⟩] ∧
          lastVersion [⟨"libcamera", "2"⟩] "libcamera" =
            lastVersion [⟨"libcamera", "1"⟩] "libcamera")) :=
  ⟨fun l => List.Perm.refl l,
    reload_decision id (fun l => List.Perm.refl l) [⟨"libcamera", "2"⟩] [⟨"libcamera", "1"⟩]⟩

theorem get_x_pkg_path_first_witness :
    (sampleEnv (fun _ => 0)).fs "" = none ∧
    ((∀ pre d post es1 e es2,
        ["/var/lib/apt/lists/", "/var/lib/apt/lists/auxfiles/"] = pre ++ d :: post →
        (sampleEnv (fun _ => 0)).fs d = some (es1 ++ e :: es2) →
        (∀ d2 ∈ pre, ∀ es, (sampleEnv (fun _ => 0)).fs d2 = some es →
          ∀ e2 ∈ es, ¬ matchingEntry (sampleEnv (fun _ => 0)).pattern e2) →
        (∀ e2 ∈ es1, ¬ matchingEntry (sampleEnv (fun _ => 0)).pattern e2) →
        matchingEntry (sampleEnv (fun _ => 0)).pattern e →
        _get_x_pkg_path (sampleEnv (fun _ => 0)).fs (sampleEnv (fun _ => 0)).pattern
          ["/var/lib/apt/lists/", "/var/lib/apt/lists/auxfiles/"] = entry_path d e.filename) ∧
    (_get_x_pkg_path (sampleEnv (fun _ => 0)).fs (sampleEnv (fun _ => 0)).pattern
        ["/var/lib/apt/lists/", "/var/lib/apt/lists/auxfiles/"] = "" ↔
      ∀ d ∈ ["/var/lib/apt/lists/", "/var/lib/apt/lists/auxfiles/"], ∀ es,
        (sampleEnv (fun _ => 0)).fs d = some es →
        ∀ e ∈ es, ¬ matchingEntry (sampleEnv (fun _ => 0)).pattern e)) ∧
    _get_x_pkg_path (sampleEnv (fun _ => 0)).fs (sampleEnv (fun _ => 0)).pattern
      ["/var/lib/apt/lists/", "/var/lib/apt/lists/auxfiles/"] =
        "/var/lib/apt/lists/a_ISP_b_main_c" :=
  ⟨by decide,
    get_x_pkg_path_first (sampleEnv (fun _ => 0)).fs (sampleEnv (fun _ => 0)).pattern
      ["/var/lib/apt/lists/", "/var/lib/apt/lists/auxfiles/"] (by decide),
    by decide⟩

end XLinuxIsp
